import Mathlib

/-!
Verification development for the markup-to-document core of the repository:
a shallow embedding, in Lean 4, of the template parser
(`src/templating/template.rs`), the context binder and variable substitution
(`src/templating/engine.rs`), and the two renderers
(`src/templating/text_renderer.rs`, `src/templating/html_renderer.rs`),
together with theorems settling the specification claims about them.

Modelling conventions:
  * Rust `String` / `&str` values are modelled as `List Char` (`Str`), and
    cursor positions as character indices.  All parsed keywords and all
    inputs exercised by the theorems are ASCII, where character indices and
    Rust's byte indices coincide; the one place where the byte/character
    distinction is observable (`match_string`'s byte slicing) is modelled
    separately at the byte level (`matchStringBytes`).
  * `usize`/`u64` become `Nat`; `f64` becomes `Rat` (no claim depends on
    float rounding, NaN, or the full float grammar).
  * `HashMap<String, String>` becomes an association list `List (Str × Str)`;
    the map's unspecified iteration order becomes the list order.
  * Rust loops become fuel-indexed structural recursions.  Every loop either
    advances the cursor (fuel `length - pos + 1` is always sufficient) or is
    given a generous global fuel; fuel exhaustion is a distinguished error
    value that the concrete evaluations below never hit.
  * Operations that can panic in Rust (unchecked `usize` subtraction, and
    slice indexing) are modelled in the `Option` monad, `none` = panic.
  * Position tracking for diagnostics (line/column) only affects the text of
    error messages and is omitted; error messages are abbreviated.
-/

/-- Rust strings, modelled as lists of characters. -/
abbrev Str := List Char

/-- Converts a Lean string literal to the `Str` representation. -/
def strOf (s : String) : Str := s.toList

/-- The NUL character the source's `peek` returns at end of input. -/
def chNul : Char := Char.ofNat 0

/-- Renders a `Nat` in decimal, modelling Rust's `Display` for integers. -/
def natStr (n : Nat) : Str := (Nat.repr n).toList

/-- Maximum of a list of naturals, 0 for the empty list; models
`iter().max().unwrap_or(0)`. -/
def listMax (l : List Nat) : Nat := l.foldr max 0

/-- Checked subtraction: models unchecked Rust `usize` subtraction, where
underflow is a panic (`none`). -/
def checkedSub (a b : Nat) : Option Nat := if b ≤ a then some (a - b) else none

/-- Repeats a string `n` times, modelling Rust `str::repeat`. -/
def repeatStr (s : Str) (n : Nat) : Str := (List.replicate n s).foldr (· ++ ·) []

/-- A run of `n` spaces, modelling `" ".repeat(n)`. -/
def spaces (n : Nat) : Str := List.replicate n ' '

/-- Concatenates the images of `f` over `l`. -/
def concatMapS (f : α → Str) (l : List α) : Str := l.foldr (fun a acc => f a ++ acc) []

/-- Models Rust `str::trim`: drops leading and trailing whitespace.  Rust
uses the Unicode `White_Space` property; `Char.isWhitespace` covers the
ASCII subset, which is the only whitespace occurring in the markup language
and in the theorems below. -/
def rustTrim (s : Str) : Str :=
  ((s.dropWhile Char.isWhitespace).reverse.dropWhile Char.isWhitespace).reverse

/-- Replaces every occurrence of the character `c` by the string `rep`,
modelling Rust `str::replace` with a `char` pattern. -/
def replaceChar (c : Char) (rep : Str) : Str → Str
  | [] => []
  | ch :: rest => (if ch = c then rep else [ch]) ++ replaceChar c rep rest

/-- One step of string replacement with a string pattern (fuel-indexed;
`rustReplace` supplies sufficient fuel).  Scans left to right, replacing
non-overlapping occurrences, like Rust `str::replace`; replacement text is
not rescanned.  The patterns used by the source are always nonempty, and an
empty pattern is treated as matching nowhere. -/
def replGo : Nat → Str → Str → Str → Str
  | 0, s, _, _ => s
  | fuel + 1, s, pat, rep =>
    match s with
    | [] => []
    | ch :: rest =>
      if pat ≠ [] ∧ pat.isPrefixOf (ch :: rest) then
        rep ++ replGo fuel ((ch :: rest).drop pat.length) pat rep
      else
        ch :: replGo fuel rest pat rep

/-- Models Rust `str::replace` with a string pattern.  Each step consumes at
least one character of `s`, so fuel `s.length + 1` never runs out. -/
def rustReplace (s pat rep : Str) : Str := replGo (s.length + 1) s pat rep

/-- Substring test: does `pat` occur (contiguously) in `s`?  Models Rust
`str::contains` with a string pattern. -/
def occursB (pat : Str) : Str → Bool
  | [] => pat.isEmpty
  | ch :: rest => pat.isPrefixOf (ch :: rest) || occursB pat rest

/-- Splits a string at every occurrence of `sep` (the separators are
consumed); always returns one more chunk than there are separators.  Models
Rust `str::split(sep)`. -/
def splitChar (sep : Char) : Str → List Str
  | [] => [[]]
  | ch :: rest =>
    if ch = sep then [] :: splitChar sep rest
    else
      match splitChar sep rest with
      | [] => [[ch]]
      | l :: ls => (ch :: l) :: ls

/-- Splits at newlines, keeping all chunks. -/
def splitNl (s : Str) : List Str := splitChar '\n' s

/-- Models Rust `str::lines`: splits at `'\n'`, and a trailing newline does
not produce a final empty line.  (`'\r'` stripping is omitted; no carriage
returns occur in this development.) -/
def rustLines (s : Str) : List Str :=
  if s = [] then []
  else if s.getLast? = some '\n' then (splitNl s).dropLast
  else splitNl s

/-- One step of whitespace-separated splitting (fuel-indexed; `splitWs`
supplies sufficient fuel). -/
def splitWsGo : Nat → Str → List Str
  | 0, _ => []
  | fuel + 1, s =>
    match s with
    | [] => []
    | ch :: rest =>
      if ch.isWhitespace then splitWsGo fuel rest
      else (ch :: rest.takeWhile (fun c => !c.isWhitespace))
            :: splitWsGo fuel (rest.dropWhile (fun c => !c.isWhitespace))

/-- Models Rust `str::split_whitespace`: the maximal whitespace-free words of
`s`, in order, with no empty words. -/
def splitWs (s : Str) : List Str := splitWsGo (s.length + 1) s

/-- Association-list lookup, modelling `HashMap::get`. -/
def lookupA (k : Str) : List (Str × Str) → Option Str
  | [] => none
  | (k', v) :: rest => if k' = k then some v else lookupA k rest

/-- Association-list insert, modelling `HashMap::insert` (replaces the value
of an existing key, otherwise appends). -/
def insertA (m : List (Str × Str)) (k v : Str) : List (Str × Str) :=
  if (lookupA k m).isSome then m.map (fun kv => if kv.1 = k then (k, v) else kv)
  else m ++ [(k, v)]

mutual
/-- The `Block` enum of `src/templating/renderer.rs`: one node of the parsed
document tree.  `Blocks` models `Vec<Block>` children (a mutual list type so
that all tree recursions below are structural). -/
inductive Block where
  | heading (level : Nat) (text : Str)
  | paragraph (text : Str)
  | commandPrompt (text : Str)
  | output (children : Blocks)
  | frame (title : Option Str) (content : Blocks)
  | metric (name : Str) (value : Str) (unit : Option Str) (trend : Option Rat)
  | logEntry (message : Str) (level : Str) (timestamp : Option Str) (source : Option Str)
  | table (headers : List Str) (rows : List (List Str))
  | trace (name : Str) (durationMs : Nat) (startTime : Str) (status : Str)
      (metadata : List (Str × Str))
  | raw (content : Str)
  | container (children : Blocks)

/-- A sequence of blocks (`Vec<Block>`). -/
inductive Blocks where
  | nil
  | cons (head : Block) (tail : Blocks)
end

/-- Appends two block sequences. -/
def appendBlocks : Blocks → Blocks → Blocks
  | .nil, ys => ys
  | .cons x xs, ys => .cons x (appendBlocks xs ys)

/-- Converts a Lean list of blocks into `Blocks`. -/
def blocksOf : List Block → Blocks
  | [] => .nil
  | b :: rest => .cons b (blocksOf rest)

/-- Parse errors.  The source's `Error::TemplateError` carries a formatted
message with line/column diagnostics; messages here are abbreviated and the
line/column fields are omitted (they affect no claim).  `outOfFuel` is the
artifact of fuel-indexed recursion and is never produced for the inputs
evaluated below. -/
inductive PErr where
  | msg (s : Str)
  | outOfFuel

/-- True exactly on `Except.ok`. -/
def isOkE : Except PErr α → Bool
  | .ok _ => true
  | .error _ => false

/-- Models `TemplateParser::is_at_end`. -/
def isAtEnd (c : Str) (p : Nat) : Bool := decide (c.length ≤ p)

/-- Models `TemplateParser::peek`: the character at the cursor, NUL at end. -/
def peekAt (c : Str) (p : Nat) : Char :=
  if isAtEnd c p then chNul else c.getD p chNul

/-- Models `TemplateParser::peek_next`: the character after the cursor. -/
def peekNextAt (c : Str) (p : Nat) : Char :=
  if isAtEnd c p then chNul
  else if c.length ≤ p + 1 then chNul
  else c.getD (p + 1) chNul

/-- One step of `skip_whitespace` (fuel-indexed). -/
def skipWsGo : Nat → Str → Nat → Nat
  | 0, _, p => p
  | fuel + 1, c, p =>
    if !isAtEnd c p && (peekAt c p).isWhitespace then skipWsGo fuel c (p + 1) else p

/-- Models `TemplateParser::skip_whitespace`: advances the cursor past
whitespace.  Each step advances, so fuel `length - p + 1` is sufficient. -/
def skipWs (c : Str) (p : Nat) : Nat := skipWsGo (c.length - p + 1) c p

/-- The scanning loop of `parse_until` (fuel-indexed): stops at the first
occurrence of `ec` that is not immediately preceded by an unconsumed
backslash; a backslash directly before `ec` causes both characters to be
stepped over. -/
def parseUntilGo : Nat → Str → Nat → Char → Nat
  | 0, _, p, _ => p
  | fuel + 1, c, p, ec =>
    if !isAtEnd c p && peekAt c p != ec then
      if peekAt c p == '\\' && peekNextAt c p == ec then parseUntilGo fuel c (p + 2) ec
      else parseUntilGo fuel c (p + 1) ec
    else p

/-- Models `TemplateParser::parse_until`: the argument text from the cursor
up to (excluding) the terminating character, or an error if end of input is
reached first.  The returned slice is `content[start..position]`: escape
backslashes are *kept* in the text. -/
def parseUntil (c : Str) (p : Nat) (ec : Char) : Except PErr (Str × Nat) :=
  let q := parseUntilGo (c.length - p + 1) c p ec
  if isAtEnd c q then .error (.msg (strOf "expected terminator, reached end of input"))
  else .ok ((c.drop p).take (q - p), q)

/-- Models `TemplateParser::expect_char`. -/
def expectChar (c : Str) (p : Nat) (exp : Char) : Except PErr Nat :=
  if isAtEnd c p then .error (.msg (strOf "expected char, reached end of input"))
  else if peekAt c p != exp then .error (.msg (strOf "expected different char"))
  else .ok (p + 1)

/-- Models `TemplateParser::match_char`. -/
def matchChar (c : Str) (p : Nat) (exp : Char) : Bool × Nat :=
  if isAtEnd c p || peekAt c p != exp then (false, p) else (true, p + 1)

/-- Models `TemplateParser::match_string` at the character level: compares
the next `exp.length` characters and advances past them on a match.  (The
source compares a *byte* slice `content[position..position+len]`, which can
additionally panic on a non-character-boundary index; that byte-level
behaviour is modelled separately by `matchStringBytes`.) -/
def matchString (c : Str) (p : Nat) (exp : Str) : Bool × Nat :=
  if c.length < p + exp.length then (false, p)
  else if (c.drop p).take exp.length = exp then (true, p + exp.length)
  else (false, p)

/-- The scanning loop of `parse_text` (fuel-indexed): advances to the next
`'@'` or end of input. -/
def parseTextGo : Nat → Str → Nat → Nat
  | 0, _, p => p
  | fuel + 1, c, p =>
    if !isAtEnd c p && peekAt c p != '@' then parseTextGo fuel c (p + 1) else p

/-- Models `TemplateParser::parse_text`: the run of characters up to the next
directive introducer. -/
def parseText (c : Str) (p : Nat) : Str × Nat :=
  let q := parseTextGo (c.length - p + 1) c p
  ((c.drop p).take (q - p), q)

/-- The scanning loop of `parse_identifier` (fuel-indexed). -/
def parseIdentGo : Nat → Str → Nat → Nat
  | 0, _, p => p
  | fuel + 1, c, p =>
    if !isAtEnd c p && ((peekAt c p).isAlphanum || peekAt c p == '_') then
      parseIdentGo fuel c (p + 1)
    else p

/-- Models `TemplateParser::parse_identifier`.  Rust's `is_alphanumeric` is
the Unicode property; `Char.isAlphanum` covers the ASCII subset, which
includes every directive keyword of the language. -/
def parseIdent (c : Str) (p : Nat) : Str × Nat :=
  let q := parseIdentGo (c.length - p + 1) c p
  ((c.drop p).take (q - p), q)

/-- Models `str::parse::<usize>` (and `::<u64>`): an optional leading `'+'`,
then one or more ASCII digits.  (Overflow is not modelled; the claims only
evaluate small literals.) -/
def parseUsize (s : Str) : Option Nat :=
  let t := match s with
    | '+' :: rest => rest
    | _ => s
  if t = [] then none
  else if t.all Char.isDigit then
    some (t.foldl (fun a c => a * 10 + (c.toNat - 48)) 0)
  else none

/-- Models `str::parse::<f64>` on the fragment of the float grammar the
templates use: optional sign, then digits with an optional fractional part
(at least one digit overall).  Exponents, `inf` and `nan` are outside the
scope of every claim and are rejected. -/
def parseF64R (s : Str) : Option Rat :=
  let (sign, t) : Rat × Str := match s with
    | '-' :: rest => (-1, rest)
    | '+' :: rest => (1, rest)
    | _ => (1, s)
  let intPart := t.takeWhile Char.isDigit
  let rest := t.dropWhile Char.isDigit
  match rest with
  | [] =>
    if intPart = [] then none
    else some (sign * (intPart.foldl (fun a c => a * 10 + (c.toNat - 48 : Nat)) 0 : Nat))
  | '.' :: frac =>
    if frac.all Char.isDigit ∧ ¬(intPart = [] ∧ frac = []) then
      let num : Nat := (intPart ++ frac).foldl (fun a c => a * 10 + (c.toNat - 48)) 0
      some (sign * (num : Rat) / ((10 : Rat) ^ frac.length))
    else none
  | _ => none

/-- The brace-depth counting loop shared by `parse_output_directive` and
`parse_frame_directive` (fuel-indexed): advances until the depth returns to
zero or input ends, returning the final position and depth. -/
def braceGo : Nat → Str → Nat → Nat → Nat × Nat
  | 0, _, p, depth => (p, depth)
  | fuel + 1, c, p, depth =>
    if 0 < depth ∧ !isAtEnd c p then
      let ch := c.getD p chNul
      braceGo fuel c (p + 1) (if ch = '{' then depth + 1 else if ch = '}' then depth - 1 else depth)
    else (p, depth)

/-- Parses one optional brace-delimited group: the `if self.peek() == '{'`
pattern used for optional directive arguments. -/
def optGroup (c : Str) (p : Nat) : Except PErr (Option Str × Nat) :=
  if peekAt c p = '{' then do
    let p ← expectChar c p '{'
    let (s, p) ← parseUntil c p '}'
    let p ← expectChar c p '}'
    .ok (some s, p)
  else .ok (none, p)

/-- Parses one mandatory brace-delimited group. -/
def reqGroup (c : Str) (p : Nat) : Except PErr (Str × Nat) := do
  let p ← expectChar c p '{'
  let (s, p) ← parseUntil c p '}'
  let p ← expectChar c p '}'
  .ok (s, p)

/-- Models `TemplateParser::parse_heading_directive`. -/
def parseHeadingD (c : Str) (p : Nat) : Except PErr (Block × Nat) := do
  let (levelStr, p) ← reqGroup c p
  match parseUsize levelStr with
  | none => .error (.msg (strOf "invalid heading level"))
  | some level => do
    let (text, p) ← reqGroup c p
    .ok (.heading level text, p)

/-- Models `TemplateParser::parse_paragraph_directive`. -/
def parseParagraphD (c : Str) (p : Nat) : Except PErr (Block × Nat) := do
  let (text, p) ← reqGroup c p
  .ok (.paragraph text, p)

/-- Models `TemplateParser::parse_command_directive`. -/
def parseCommandD (c : Str) (p : Nat) : Except PErr (Block × Nat) := do
  let (command, p) ← reqGroup c p
  .ok (.commandPrompt command, p)

/-- Models `TemplateParser::parse_metric_directive`. -/
def parseMetricD (c : Str) (p : Nat) : Except PErr (Block × Nat) := do
  let (name, p) ← reqGroup c p
  let (value, p) ← reqGroup c p
  let (unit, p) ← optGroup c p
  match (optGroup c p : Except PErr (Option Str × Nat)) with
  | .error e => .error e
  | .ok (none, p) => .ok (.metric name value unit none, p)
  | .ok (some trendStr, p) =>
    match parseF64R trendStr with
    | none => .error (.msg (strOf "invalid trend value"))
    | some t => .ok (.metric name value unit (some t), p)

/-- Models `TemplateParser::parse_log_directive`. -/
def parseLogD (c : Str) (p : Nat) : Except PErr (Block × Nat) := do
  let (message, p) ← reqGroup c p
  let (level, p) ← reqGroup c p
  let (timestamp, p) ← optGroup c p
  let (source, p) ← optGroup c p
  .ok (.logEntry message level timestamp source, p)

/-- Splits a pipe-delimited cell list and trims each cell, as the table
directive does. -/
def splitPipe (s : Str) : List Str := (splitChar '|' s).map rustTrim

/-- The `@row` loop of `parse_table_directive` (fuel-indexed). -/
def tableRowsGo : Nat → Str → Nat → List (List Str) → Except PErr (List (List Str) × Nat)
  | 0, _, _, _ => .error .outOfFuel
  | fuel + 1, c, p, acc =>
    match matchString c p (strOf "@row") with
    | (true, p) => do
      let (rowStr, p) ← reqGroup c p
      tableRowsGo fuel c (skipWs c p) (acc ++ [splitPipe rowStr])
    | (false, p) => .ok (acc, p)

/-- Models `TemplateParser::parse_table_directive`. -/
def parseTableD (fuel : Nat) (c : Str) (p : Nat) : Except PErr (Block × Nat) := do
  let p ← expectChar c p '{'
  let p := skipWs c p
  let (headers, p) ←
    match matchString c p (strOf "@headers") with
    | (true, p) => do
      let (headersStr, p) ← reqGroup c p
      (.ok (splitPipe headersStr, skipWs c p) : Except PErr (List Str × Nat))
    | (false, p) => .ok ([], p)
  let (rows, p) ← tableRowsGo fuel c p []
  let p ← expectChar c p '}'
  .ok (.table headers rows, p)

/-- The `@meta` loop of `parse_trace_directive` (fuel-indexed). -/
def traceMetaGo : Nat → Str → Nat → List (Str × Str) → Except PErr (List (Str × Str) × Nat)
  | 0, _, _, _ => .error .outOfFuel
  | fuel + 1, c, p, acc =>
    match matchString c p (strOf "@meta") with
    | (true, p) => do
      let (key, p) ← reqGroup c p
      let (value, p) ← reqGroup c p
      traceMetaGo fuel c p (insertA acc key value)
    | (false, p) => .ok (acc, p)

/-- Models `TemplateParser::parse_trace_directive`. -/
def parseTraceD (fuel : Nat) (c : Str) (p : Nat) : Except PErr (Block × Nat) := do
  let (name, p) ← reqGroup c p
  let (durationStr, p) ← reqGroup c p
  match parseUsize durationStr with
  | none => .error (.msg (strOf "invalid duration"))
  | some durationMs => do
    let (startTime, p) ← reqGroup c p
    let (status, p) ← reqGroup c p
    if peekAt c p = '{' then do
      let p ← expectChar c p '{'
      let (metadata, p) ← traceMetaGo fuel c p []
      let p ← expectChar c p '}'
      .ok (.trace name durationMs startTime status metadata, p)
    else
      .ok (.trace name durationMs startTime status [], p)

/-- Models `TemplateParser::parse_raw_directive`. -/
def parseRawD (c : Str) (p : Nat) : Except PErr (Block × Nat) := do
  let (content, p) ← reqGroup c p
  .ok (.raw content, p)

mutual
/-- Models the top-level loop of `TemplateParser::parse`: repeatedly parses
one block until `parse_block` signals end of input. -/
def parseGo : Nat → Str → Nat → Except PErr Blocks
  | 0, _, _ => .error .outOfFuel
  | fuel + 1, c, p =>
    match parseBlockF fuel c p with
    | .error e => .error e
    | .ok (none, _) => .ok .nil
    | .ok (some b, p') =>
      match parseGo fuel c p' with
      | .error e => .error e
      | .ok bs => .ok (.cons b bs)
  termination_by structural fuel c p => fuel

/-- Models `TemplateParser::parse_block`: skips whitespace; at `'@'`,
recognizes the bare keywords `metrics`/`logs`/`traces` (emitted as `Raw`
markers) and `var` (emitted as a `Raw` marker `@var{name}`), otherwise
dispatches on the directive name; otherwise a run of plain text becomes one
`Paragraph`. -/
def parseBlockF : Nat → Str → Nat → Except PErr (Option Block × Nat)
  | 0, _, _ => .error .outOfFuel
  | fuel + 1, c, p =>
    let p := skipWs c p
    if isAtEnd c p then .ok (none, p)
    else
      match matchChar c p '@' with
      | (true, p) =>
        match matchString c p (strOf "metrics") with
        | (true, p) => .ok (some (.raw (strOf "@metrics")), p)
        | (false, p) =>
        match matchString c p (strOf "logs") with
        | (true, p) => .ok (some (.raw (strOf "@logs")), p)
        | (false, p) =>
        match matchString c p (strOf "traces") with
        | (true, p) => .ok (some (.raw (strOf "@traces")), p)
        | (false, p) =>
        match matchString c p (strOf "var") with
        | (true, p) => do
          let (varName, p) ← reqGroup c p
          .ok (some (.raw (strOf "@var\x7b" ++ varName ++ strOf "\x7d")), p)
        | (false, p) => parseDirectiveF fuel c p
      | (false, p) =>
        let (text, p) := parseText c p
        if text = [] then .ok (none, p) else .ok (some (.paragraph text), p)
  termination_by structural fuel c p => fuel

/-- Models `TemplateParser::parse_directive`: reads the directive identifier
and dispatches; an unknown identifier is a fatal error. -/
def parseDirectiveF : Nat → Str → Nat → Except PErr (Option Block × Nat)
  | 0, _, _ => .error .outOfFuel
  | fuel + 1, c, p =>
    let (ident, p) := parseIdent c p
    let lift : Except PErr (Block × Nat) → Except PErr (Option Block × Nat) :=
      fun r => r.map (fun bp => (some bp.1, bp.2))
    if ident = strOf "heading" then lift (parseHeadingD c p)
    else if ident = strOf "paragraph" then lift (parseParagraphD c p)
    else if ident = strOf "command" then lift (parseCommandD c p)
    else if ident = strOf "output" then parseOutputD fuel c p
    else if ident = strOf "frame" then parseFrameD fuel c p
    else if ident = strOf "metric" then lift (parseMetricD c p)
    else if ident = strOf "log" then lift (parseLogD c p)
    else if ident = strOf "table" then lift (parseTableD fuel c p)
    else if ident = strOf "trace" then lift (parseTraceD fuel c p)
    else if ident = strOf "raw" then lift (parseRawD c p)
    else .error (.msg (strOf "unknown directive"))
  termination_by structural fuel c p => fuel

/-- Models `TemplateParser::parse_output_directive`: extracts the body by
brace-depth counting, then parses it with a fresh parser instance. -/
def parseOutputD : Nat → Str → Nat → Except PErr (Option Block × Nat)
  | 0, _, _ => .error .outOfFuel
  | fuel + 1, c, p => do
    let p ← expectChar c p '{'
    let startPos := p
    let (endPos, depth) := braceGo (c.length - p + 1) c p 1
    if 0 < depth then .error (.msg (strOf "unclosed output block"))
    else
      let content := (c.drop startPos).take (endPos - 1 - startPos)
      match parseGo fuel content 0 with
      | .error e => .error e
      | .ok nested => .ok (some (.output nested), endPos)
  termination_by structural fuel c p => fuel

/-- Models `TemplateParser::parse_frame_directive`: an initial brace group is
always consumed as the title (via `parse_until`), then a second group,
extracted by brace-depth counting, is parsed as the body with a fresh parser
instance. -/
def parseFrameD : Nat → Str → Nat → Except PErr (Option Block × Nat)
  | 0, _, _ => .error .outOfFuel
  | fuel + 1, c, p => do
    let (title, p) ←
      if peekAt c p = '{' then do
        let p ← expectChar c p '{'
        let (t, p) ← parseUntil c p '}'
        let p ← expectChar c p '}'
        (.ok (some t, p) : Except PErr (Option Str × Nat))
      else .ok (none, p)
    let p ← expectChar c p '{'
    let startPos := p
    let (endPos, depth) := braceGo (c.length - p + 1) c p 1
    if 0 < depth then .error (.msg (strOf "unclosed frame block"))
    else
      let content := (c.drop startPos).take (endPos - 1 - startPos)
      match parseGo fuel content 0 with
      | .error e => .error e
      | .ok nested => .ok (some (.frame title nested), endPos)
  termination_by structural fuel c p => fuel
end

/-- Models `TemplateParser::parse`, run on a whole source text.  The fuel is
generous: every loop iteration advances the cursor and every nested parse
runs on a strictly shorter slice, so this bound is never hit for the
evaluations performed in this file. -/
def parse (c : Str) : Except PErr Blocks := parseGo (16 * (c.length + 16)) c 0

example : parse (strOf "@heading\x7b1\x7d\x7bTitle\x7d") =
    .ok (.cons (.heading 1 (strOf "Title")) .nil) := rfl

example : parse (strOf "@paragraph\x7bText\x7d") =
    .ok (.cons (.paragraph (strOf "Text")) .nil) := rfl

/-- A metric record from the data store (`src/models/metric.rs`), as consumed
by the binder.  The `value : f64` field only ever reaches the binder through
`value.to_string()`; it is modelled here by that decimal rendering
(`valueStr`).  `labels` models the `HashMap<String, String>` of labels. -/
structure CtxMetric where
  name : Str
  valueStr : Str
  labels : List (Str × Str)

/-- A log record (`src/models/log.rs`) as consumed by the binder: the
`timestamp` field only reaches the binder through `to_rfc3339()` and the
`level` through `to_string()`; both are modelled by their renderings. -/
structure CtxLog where
  message : Str
  levelStr : Str
  tsRfc3339 : Str
  source : Str

/-- A trace record (`src/models/trace.rs`) as consumed by the binder. -/
structure CtxTrace where
  name : Str
  durationMs : Nat
  startRfc3339 : Str
  metadata : List (Str × Str)

/-- Models `TemplateEngine`'s `TemplateContext` (`src/templating/engine.rs`):
named variables plus the three typed data collections.  The `data` escape
hatch field is unused by every directive and is omitted, and the source's
`variables` field is named `vars` (`variables` is a reserved word). -/
structure TemplateContext where
  vars : List (Str × Str)
  metrics : List CtxMetric
  logs : List CtxLog
  traces : List CtxTrace

/-- Models `Metric::get_label`. -/
def getLabel (m : CtxMetric) (k : Str) : Option Str := lookupA k m.labels

/-- Models `Trace::get_metadata`. -/
def getMetadata (t : CtxTrace) (k : Str) : Option Str := lookupA k t.metadata

/-- The expansion of a `Raw("@metrics")` marker: the explanatory comment
block followed by one `Metric` block per context metric, deriving `unit` and
`trend` from the labels (an unparseable trend is non-fatally dropped). -/
def expandMetrics (ctx : TemplateContext) : Blocks :=
  Blocks.cons (.raw (strOf "<!-- Metrics: " ++ natStr ctx.metrics.length ++ strOf " -->"))
    (blocksOf (ctx.metrics.map (fun m =>
      Block.metric m.name m.valueStr (getLabel m (strOf "unit"))
        ((getLabel m (strOf "trend")).bind parseF64R))))

/-- The expansion of a `Raw("@logs")` marker: a comment block, then either a
"no logs" paragraph or one table with the fixed headers and one row per log
entry. -/
def expandLogs (ctx : TemplateContext) : Blocks :=
  Blocks.cons (.raw (strOf "<!-- Logs: " ++ natStr ctx.logs.length ++ strOf " -->"))
    (if ctx.logs.isEmpty then
      Blocks.cons (.paragraph (strOf "No logs available.")) .nil
    else
      Blocks.cons
        (.table [strOf "Timestamp", strOf "Level", strOf "Source", strOf "Message"]
          (ctx.logs.map (fun log => [log.tsRfc3339, log.levelStr, log.source, log.message])))
        .nil)

/-- The expansion of a `Raw("@traces")` marker: a comment block, then one
`Trace` block per entry, with `status` defaulting to `"unknown"`. -/
def expandTraces (ctx : TemplateContext) : Blocks :=
  Blocks.cons (.raw (strOf "<!-- Traces: " ++ natStr ctx.traces.length ++ strOf " -->"))
    (blocksOf (ctx.traces.map (fun t =>
      Block.trace t.name t.durationMs t.startRfc3339
        ((getMetadata t (strOf "status")).getD (strOf "unknown")) t.metadata)))

mutual
/-- The per-block rewriting of `TemplateEngine::process_blocks`: `Raw`
blocks whose trimmed content is `@metrics`, `@logs` or `@traces` expand to
data-bound blocks; `Container`/`Frame`/`Output` children are recursively
bound; every other block is passed through unchanged (one block in, a
sequence out, matching the `push`-based loop of the source). -/
def processBlock (ctx : TemplateContext) : Block → Blocks
  | .raw content =>
    if rustTrim content = strOf "@metrics" then expandMetrics ctx
    else if rustTrim content = strOf "@logs" then expandLogs ctx
    else if rustTrim content = strOf "@traces" then expandTraces ctx
    else .cons (.raw content) .nil
  | .container nested => .cons (.container (processBlocks ctx nested)) .nil
  | .frame title content => .cons (.frame title (processBlocks ctx content)) .nil
  | .output nested => .cons (.output (processBlocks ctx nested)) .nil
  | b => .cons b .nil
  termination_by structural b => b

/-- Models `TemplateEngine::process_blocks` (the context binder): the
concatenation of the per-block rewritings.  The source returns a `Result`
for future fallible directives but no present code path can fail, so the
model is total. -/
def processBlocks (ctx : TemplateContext) : Blocks → Blocks
  | .nil => .nil
  | .cons b rest => appendBlocks (processBlock ctx b) (processBlocks ctx rest)
  termination_by structural bs => bs
end

/-- Models `TemplateEngine::substitute_variables_in_content`: for each
variable entry, in the map's iteration order (unspecified for the Rust
`HashMap`; the list order here), globally replaces the token
`[[name]]` by the value in the accumulated text. -/
def substituteVariables (vars : List (Str × Str)) (content : Str) : Str :=
  vars.foldl
    (fun result nv => rustReplace result (strOf "[[" ++ nv.1 ++ strOf "]]") nv.2) content

/-- The UTF-8 encoding of one character. -/
def utf8Bytes (c : Char) : List Nat :=
  let n := c.toNat
  if n < 0x80 then [n]
  else if n < 0x800 then [0xC0 + n / 64, 0x80 + n % 64]
  else if n < 0x10000 then [0xE0 + n / 4096, 0x80 + n / 64 % 64, 0x80 + n % 64]
  else [0xF0 + n / 0x40000, 0x80 + n / 4096 % 64, 0x80 + n / 64 % 64, 0x80 + n % 64]

/-- The UTF-8 byte sequence of a string, as Rust's `str::as_bytes`. -/
def strBytes (s : Str) : List Nat := s.foldr (fun c acc => utf8Bytes c ++ acc) []

/-- Models Rust `str::is_char_boundary` on the byte sequence: index 0, the
length, or any position whose byte is not a UTF-8 continuation byte. -/
def isCharBoundary (bytes : List Nat) (i : Nat) : Bool :=
  decide (i = 0) || decide (i = bytes.length) ||
    (match bytes.get? i with
     | some b => decide (b < 0x80 ∨ 0xC0 ≤ b)
     | none => false)

/-- Byte-level model of `TemplateParser::match_string` (positions in bytes):
computes `end_pos = position + expected.len()`, returns `false` when it
exceeds the input length, and otherwise slices
`content[position..end_pos]` — which, in Rust, panics (`Except.error ()`
here) when either index is not a character boundary — before comparing
against the expected keyword. -/
def matchStringBytes (content : Str) (posB : Nat) (expected : Str) :
    Except Unit (Bool × Nat) :=
  let cb := strBytes content
  let eb := strBytes expected
  let endPos := posB + eb.length
  if cb.length < endPos then .ok (false, posB)
  else if !(isCharBoundary cb posB && isCharBoundary cb endPos) then .error ()
  else if (cb.drop posB).take eb.length = eb then .ok (true, endPos)
  else .ok (false, posB)

example : processBlocks ⟨[], [], [], []⟩ (.cons (.raw (strOf " @metrics")) .nil) =
    .cons (.raw (strOf "<!-- Metrics: 0 -->")) .nil := rfl

example : substituteVariables [(strOf "a", strOf "X")] (strOf "v=[[a]].") = strOf "v=X." := rfl

/-- Models the `TextRenderer` configuration (`src/templating/text_renderer.rs`):
the wrap width (default 80) and the ASCII-only fallback flag. -/
structure TextRenderer where
  terminalWidth : Nat
  asciiOnly : Bool

/-- Models `TextRenderer::new()`. -/
def textRendererNew : TextRenderer := ⟨80, false⟩

/-- The box-drawing glyph set of the text renderer. -/
structure BoxChars where
  horizontal : Str
  vertical : Str
  topLeft : Str
  topRight : Str
  bottomLeft : Str
  bottomRight : Str
  cross : Str
  teeRight : Str
  teeLeft : Str
  teeDown : Str
  teeUp : Str

/-- Models `BoxChars::unicode()`. -/
def unicodeBox : BoxChars :=
  ⟨strOf "─", strOf "│", strOf "┌", strOf "┐", strOf "└", strOf "┘",
   strOf "┼", strOf "├", strOf "┤", strOf "┬", strOf "┴"⟩

/-- Models `BoxChars::ascii()`. -/
def asciiBox : BoxChars :=
  ⟨strOf "-", strOf "|", strOf "+", strOf "+", strOf "+", strOf "+",
   strOf "+", strOf "+", strOf "+", strOf "+", strOf "+"⟩

/-- Models `TextRenderer::box_chars`. -/
def boxChars (asciiOnly : Bool) : BoxChars := if asciiOnly then asciiBox else unicodeBox

/-- The word loop of `TextRenderer::wrap_text` (state-passing form of the
source's `for word in text.split_whitespace()` with its `result`,
`current_line` and `current_width` variables). -/
def wrapGo (avail indent : Nat) : List Str → Str → Str → Nat → Str
  | [], res, cur, _ => if cur ≠ [] then res ++ cur else res
  | word :: restWords, res, cur, curW =>
    let wlen := word.length
    let st :=
      if avail < curW + wlen + 1 then
        if cur ≠ [] then (res ++ cur ++ ['\n'], spaces indent, indent)
        else (res, cur, curW)
      else (res, cur, curW)
    let st2 :=
      if st.2.1 ≠ [] then (st.2.1 ++ [' '], st.2.2 + 1) else (st.2.1, st.2.2)
    wrapGo avail indent restWords st.1 (st2.1 ++ word) (st2.2 + wlen)

/-- Models `TextRenderer::wrap_text`: word-wraps `text` to the terminal
width, with continuation lines indented by `indent`; when fewer than 11
columns are available the text is returned unwrapped. -/
def wrapText (terminalWidth : Nat) (text : Str) (indent : Nat) : Str :=
  let avail := terminalWidth - indent
  if avail ≤ 10 then text
  else wrapGo avail indent (splitWs text) [] [] 0

/-- The body-line loop of `TextRenderer::create_box`. -/
def boxLines (bx : BoxChars) (boxWidth : Nat) : List Str → Option Str
  | [] => some []
  | line :: rest => do
    let a ← checkedSub boxWidth line.length
    let padding ← checkedSub a 4
    let restS ← boxLines bx boxWidth rest
    some (bx.vertical ++ [' '] ++ line ++ [' '] ++ spaces padding ++ [' '] ++
      bx.vertical ++ ['\n'] ++ restS)

/-- Models `TextRenderer::create_box`: draws a box (with optional title line)
around already-rendered content.  The source's unchecked `usize`
subtractions (`terminal_width - 4`, padding computations) are modelled with
`checkedSub`. -/
def createBox (r : TextRenderer) (text : Str) (title : Option Str) : Option Str := do
  let bx := boxChars r.asciiOnly
  let lines := rustLines text
  let maxLineWidth := listMax (lines.map List.length)
  let titleWidth := match title with
    | some t => t.length + 2
    | none => 0
  let twm4 ← checkedSub r.terminalWidth 4
  let boxWidth := min (max maxLineWidth titleWidth) twm4 + 4
  let top ←
    match title with
    | some titleText => do
      let tt := [' '] ++ titleText ++ [' ']
      let a ← checkedSub boxWidth tt.length
      let padding ← checkedSub a 2
      some (bx.topLeft ++ tt ++ repeatStr bx.horizontal padding ++ bx.topRight)
    | none => do
      let a ← checkedSub boxWidth 2
      some (bx.topLeft ++ repeatStr bx.horizontal a ++ bx.topRight)
  let body ← boxLines bx boxWidth lines
  let a ← checkedSub boxWidth 2
  some (top ++ ['\n'] ++ body ++ bx.bottomLeft ++ repeatStr bx.horizontal a ++ bx.bottomRight)

/-- The guarded-write loop updating the column widths from one row of cells
(`if i < col_widths.len() { col_widths[i] = col_widths[i].max(w) }`); reads
are modelled with `List.get?` in the `Option` monad so that any
out-of-bounds read would surface as `none`. -/
def widthsUpd : List Str → Nat → List Nat → Option (List Nat)
  | [], _, cw => some cw
  | cell :: rest, i, cw =>
    if i < cw.length then do
      let cur ← cw.get? i
      widthsUpd rest (i + 1) (cw.set i (max cur cell.length))
    else widthsUpd rest (i + 1) cw

/-- The row loop of the column-width computation. -/
def widthsRows : List (List Str) → List Nat → Option (List Nat)
  | [], cw => some cw
  | row :: rest, cw => do
    let cw ← widthsUpd row 0 cw
    widthsRows rest cw

/-- One horizontal separator run: for each column width emit
`horizontal.repeat(width + 2)` followed by `mid` between columns (the
per-iteration `col_widths.len() - 1` subtraction is modelled with
`checkedSub`). -/
def sepRow (horiz mid : Str) (cwTotal : Nat) : List Nat → Nat → Option Str
  | [], _ => some []
  | w :: rest, i => do
    let lm1 ← checkedSub cwTotal 1
    let restS ← sepRow horiz mid cwTotal rest (i + 1)
    some (repeatStr horiz (w + 2) ++ (if i < lm1 then mid else []) ++ restS)

/-- One row of cells: `" {:<width$} "` left-padded cells with a vertical
glyph after each, using width 0 for cells beyond the computed columns. -/
def cellsRow (vert : Str) (cw : List Nat) : List Str → Nat → Option Str
  | [], _ => some []
  | cell :: rest, i => do
    let width ← if i < cw.length then cw.get? i else some 0
    let restS ← cellsRow vert cw rest (i + 1)
    some ([' '] ++ cell ++ spaces (width - cell.length) ++ [' '] ++ vert ++ restS)

/-- The data-row loop of `format_table`, with a separator line between
consecutive rows (the per-iteration `rows.len() - 1` subtraction is modelled
with `checkedSub`). -/
def dataRows (bx : BoxChars) (cw : List Nat) (rowsTotal : Nat) :
    List (List Str) → Nat → Option Str
  | [], _ => some []
  | row :: rest, idx => do
    let cells ← cellsRow bx.vertical cw row 0
    let rl1 ← checkedSub rowsTotal 1
    let sep ←
      if idx < rl1 then do
        let s ← sepRow bx.horizontal bx.cross cw.length cw 0
        some (bx.teeRight ++ s ++ bx.teeLeft ++ ['\n'])
      else some []
    let restS ← dataRows bx cw rowsTotal rest (idx + 1)
    some (bx.vertical ++ cells ++ ['\n'] ++ sep ++ restS)

/-- Models `TextRenderer::format_table`: computes per-column widths as the
maximum cell width per column index across header and all rows (writes
guarded by `i < col_widths.len()`), then draws the bordered table.  Every
Rust operation that could panic (indexing, `len() - 1`) is modelled in the
`Option` monad. -/
def formatTableText (bx : BoxChars) (headers : List Str) (rows : List (List Str)) :
    Option Str := do
  if headers.isEmpty && rows.isEmpty then some []
  else do
    let colCount := max headers.length (listMax (rows.map List.length))
    let cw0 := List.replicate colCount 0
    let cw1 ← widthsUpd headers 0 cw0
    let cw ← widthsRows rows cw1
    let topS ← sepRow bx.horizontal bx.teeDown cw.length cw 0
    let top := bx.topLeft ++ topS ++ bx.topRight ++ ['\n']
    let headerPart ←
      if !headers.isEmpty then do
        let hc ← cellsRow bx.vertical cw headers 0
        let hs ← sepRow bx.horizontal bx.cross cw.length cw 0
        some (bx.vertical ++ hc ++ ['\n'] ++ bx.teeRight ++ hs ++ bx.teeLeft ++ ['\n'])
      else some []
    let dataPart ← dataRows bx cw rows.length rows 0
    let botS ← sepRow bx.horizontal bx.teeUp cw.length cw 0
    some (top ++ headerPart ++ dataPart ++ bx.bottomLeft ++ botS ++ bx.bottomRight ++ ['\n'])

/-- Models the text `Renderer::render_heading`: the level is clamped to
[1,6] at render time; levels 1-3 get ASCII underlines. -/
def renderHeadingText (level : Nat) (text : Str) : Str :=
  let l := max (min level 6) 1
  let underline : Str := if l = 1 then strOf "=" else if l = 2 then strOf "-"
    else if l = 3 then strOf "~" else []
  text ++ ['\n'] ++
    (if underline ≠ [] ∧ l ≤ 3 then repeatStr underline text.length ++ strOf "\n\n"
     else strOf "\n")

/-- Models the text `Renderer::render_paragraph`: word-wrapped at indent 0,
followed by a blank line. -/
def renderParagraphText (terminalWidth : Nat) (text : Str) : Str :=
  wrapText terminalWidth text 0 ++ strOf "\n\n"

/-- Models the text `Renderer::render_metric`. -/
def renderMetricText (r : TextRenderer) (name value : Str) (unit : Option Str)
    (trend : Option Rat) : Str :=
  let valueWithUnit := match unit with
    | some u => value ++ [' '] ++ u
    | none => value
  let trendIndicator : Str := match trend with
    | some t => if 0 < t then strOf " ▲" else if t < 0 then strOf " ▼" else []
    | none => []
  let formatted := valueWithUnit ++ trendIndicator
  let padding := r.terminalWidth - name.length - formatted.length - 3
  name ++ strOf ": " ++ spaces padding ++ formatted ++ ['\n']

/-- Models the text `Renderer::render_log_entry`. -/
def renderLogEntryText (r : TextRenderer) (message level : Str)
    (timestamp source : Option Str) : Str :=
  let lu := level.map Char.toUpper
  let levelStr :=
    if lu = strOf "DEBUG" then strOf "DEBUG"
    else if lu = strOf "INFO" then strOf "INFO "
    else if lu = strOf "WARNING" ∨ lu = strOf "WARN" then strOf "WARN "
    else if lu = strOf "ERROR" then strOf "ERROR"
    else strOf "INFO "
  let pfx := match timestamp, source with
    | some ts, some src => ['['] ++ ts ++ strOf "] [" ++ levelStr ++ strOf "] [" ++ src ++ strOf "] "
    | some ts, none => ['['] ++ ts ++ strOf "] [" ++ levelStr ++ strOf "] "
    | none, some src => ['['] ++ levelStr ++ strOf "] [" ++ src ++ strOf "] "
    | none, none => ['['] ++ levelStr ++ strOf "] "
  let indent := pfx.length
  let wrapped := wrapText r.terminalWidth message indent
  match rustLines wrapped with
  | [] => []
  | first :: restLines =>
    pfx ++ first ++ ['\n'] ++
      concatMapS (fun line => spaces indent ++ line ++ ['\n']) restLines

/-- Models the text `Renderer::render_trace`. -/
def renderTraceText (name : Str) (durationMs : Nat) (startTime status : Str)
    (metadata : List (Str × Str)) : Str :=
  name ++ strOf " (" ++ natStr durationMs ++ strOf " ms)\n" ++
    strOf "Started: " ++ startTime ++ strOf ", Status: " ++ status ++ ['\n'] ++
    (if !metadata.isEmpty then
      strOf "Metadata:\n" ++
        concatMapS (fun kv => strOf "  " ++ kv.1 ++ strOf ": " ++ kv.2 ++ ['\n']) metadata
    else [])

mutual
/-- Models the default `Renderer::render_block` dispatch as instantiated by
the text renderer: every variant is routed to its specific render function
(none of which the text renderer overrides). -/
def renderBlockText (r : TextRenderer) : Block → Option Str
  | .heading level text => some (renderHeadingText level text)
  | .paragraph text => some (renderParagraphText r.terminalWidth text)
  | .commandPrompt command => some (strOf "$ " ++ command ++ ['\n'])
  | .output blocks => do
    let content ← renderBlocksText r blocks
    some (content ++ ['\n'])
  | .frame title content => do
    let rendered ← renderBlocksText r content
    let boxed ← createBox r rendered title
    some (boxed ++ ['\n'])
  | .metric name value unit trend => some (renderMetricText r name value unit trend)
  | .logEntry message level timestamp source =>
    some (renderLogEntryText r message level timestamp source)
  | .table headers rows => formatTableText (boxChars r.asciiOnly) headers rows
  | .trace name durationMs startTime status metadata =>
    some (renderTraceText name durationMs startTime status metadata)
  | .raw content => some content
  | .container blocks => renderBlocksText r blocks
  termination_by structural b => b

/-- Models the default `Renderer::render_blocks`: depth-first concatenation
of `render_block` over the sequence. -/
def renderBlocksText (r : TextRenderer) : Blocks → Option Str
  | .nil => some []
  | .cons b rest => do
    let s ← renderBlockText r b
    let t ← renderBlocksText r rest
    some (s ++ t)
  termination_by structural bs => bs
end

/-- Models the text `Renderer::render_template`: a `# name` header line, the
rendered blocks, and a generation-timestamp footer.  The source reads
`chrono::Utc::now()`; the timestamp is passed in as `now`. -/
def renderTemplateText (r : TextRenderer) (templateName : Str) (now : Str)
    (blocks : Blocks) : Option Str := do
  let content ← renderBlocksText r blocks
  some (strOf "# " ++ templateName ++ strOf "\n\n" ++ content ++
    strOf "\n--- Generated at " ++ now ++ strOf " ---\n")

example : renderHeadingText 1 (strOf "Hi") = strOf "Hi\n==\n\n" := rfl

example : renderParagraphText 80 (strOf "Hello world") = strOf "Hello world\n\n" := rfl

/-- Models `HtmlRenderer::get_terminal_css`: the inline stylesheet constant
(braces, quotes and newlines written with character escapes). -/
def getTerminalCss : Str := strOf "\n        .terminal \x7b\n            background-color: #1e1e1e;\n            color: #f0f0f0;\n            font-family: \x27Courier New\x27, monospace;\n            padding: 1rem;\n            border-radius: 0.5rem;\n            overflow: auto;\n            line-height: 1.5;\n            max-width: 100%;\n            box-sizing: border-box;\n        \x7d\n        \n        .terminal-command \x7b\n            color: #63c8ff;\n            margin: 0.5rem 0;\n        \x7d\n        \n        .terminal-command::before \x7b\n            content: \x27$ \x27;\n            color: #63c8ff;\n        \x7d\n        \n        .terminal-output \x7b\n            margin: 0.5rem 0 1.5rem 0;\n            padding-left: 0.5rem;\n            border-left: 2px solid #3a3a3a;\n        \x7d\n        \n        .terminal-frame \x7b\n            border: 1px solid #3a3a3a;\n            padding: 0.5rem;\n            margin: 0.5rem 0;\n            border-radius: 0.3rem;\n        \x7d\n        \n        .terminal-frame-title \x7b\n            background-color: #3a3a3a;\n            padding: 0.3rem 0.5rem;\n            margin: -0.5rem -0.5rem 0.5rem -0.5rem;\n            border-radius: 0.3rem 0.3rem 0 0;\n            font-weight: bold;\n        \x7d\n        \n        .terminal-metric \x7b\n            display: flex;\n            justify-content: space-between;\n            padding: 0.3rem 0;\n        \x7d\n        \n        .terminal-metric-name \x7b\n            font-weight: bold;\n        \x7d\n        \n        .terminal-metric-value \x7b\n            color: #63c8ff;\n        \x7d\n        \n        .terminal-log \x7b\n            padding: 0.2rem 0;\n        \x7d\n        \n        .terminal-log-debug \x7b\n            color: #9e9e9e;\n        \x7d\n        \n        .terminal-log-info \x7b\n            color: #63c8ff;\n        \x7d\n        \n        .terminal-log-warning \x7b\n            color: #ffac35;\n        \x7d\n        \n        .terminal-log-error \x7b\n            color: #ff5b5b;\n        \x7d\n        \n        .terminal-table \x7b\n            border-collapse: collapse;\n            width: 100%;\n            margin: 0.5rem 0;\n        \x7d\n        \n        .terminal-table th \x7b\n            text-align: left;\n            padding: 0.3rem;\n            border-bottom: 1px solid #3a3a3a;\n            color: #63c8ff;\n        \x7d\n        \n        .terminal-table td \x7b\n            padding: 0.3rem;\n            border-bottom: 1px solid #2a2a2a;\n        \x7d\n        \n        .terminal-trace \x7b\n            padding: 0.3rem 0;\n        \x7d\n        \n        .terminal-trace-name \x7b\n            font-weight: bold;\n        \x7d\n        \n        .terminal-trace-duration \x7b\n            color: #63c8ff;\n        \x7d\n        \n        .terminal-trend-up::after \x7b\n            content: \x27 ▲\x27;\n            color: #4caf50;\n        \x7d\n        \n        .terminal-trend-down::after \x7b\n            content: \x27 ▼\x27;\n            color: #ff5b5b;\n        \x7d\n        \n        @media (max-width: 768px) \x7b\n            .terminal \x7b\n                padding: 0.5rem;\n            \x7d\n            \n            .terminal-table \x7b\n                font-size: 0.9rem;\n            \x7d\n        \x7d\n        "

/-- Models `Vec::join(sep)` for strings. -/
def joinSep (sep : Str) : List Str → Str
  | [] => []
  | [x] => x
  | x :: rest => x ++ sep ++ joinSep sep rest

/-- Models the `HtmlRenderer` configuration. -/
structure HtmlRenderer where
  additionalClasses : List Str
  includeInlineCss : Bool

/-- Models `HtmlRenderer::new()`. -/
def htmlRendererNew : HtmlRenderer := ⟨[], true⟩

/-- Models `HtmlRenderer::escape_html`: the chained `str::replace` calls
escaping `&`, `<`, `>`, `"` and `'` (in that order). -/
def escapeHtml (text : Str) : Str :=
  replaceChar '\'' (strOf "&#39;")
    (replaceChar '"' (strOf "&quot;")
      (replaceChar '>' (strOf "&gt;")
        (replaceChar '<' (strOf "&lt;")
          (replaceChar '&' (strOf "&amp;") text))))

/-- Models `HtmlRenderer::get_trend_class`. -/
def getTrendClass (trend : Option Rat) : Str :=
  match trend with
  | some t => if 0 < t then strOf "terminal-trend-up"
      else if t < 0 then strOf "terminal-trend-down" else []
  | none => []

/-- Models the HTML `Renderer::render_heading`: the level is clamped to
[1,6] at render time and the text is escaped. -/
def renderHeadingHtml (level : Nat) (text : Str) : Str :=
  let l := max (min level 6) 1
  strOf "<h" ++ natStr l ++ strOf " class=\"terminal-heading terminal-heading-" ++
    natStr l ++ strOf "\">" ++ escapeHtml text ++ strOf "</h" ++ natStr l ++ strOf ">"

/-- Models the HTML `Renderer::render_paragraph`. -/
def renderParagraphHtml (text : Str) : Str :=
  strOf "<p class=\"terminal-paragraph\">" ++ escapeHtml text ++ strOf "</p>"

/-- Models the HTML `Renderer::render_command_prompt`. -/
def renderCommandHtml (command : Str) : Str :=
  strOf "<div class=\"terminal-command\">" ++ escapeHtml command ++ strOf "</div>"

/-- Models the HTML `Renderer::render_output` applied to already-rendered
children. -/
def renderOutputHtml (content : Str) : Str :=
  strOf "<div class=\"terminal-output\">" ++ content ++ strOf "</div>"

/-- Models the HTML `Renderer::render_frame`: the (escaped) optional title
bar followed by the already-rendered content. -/
def renderFrameHtml (title : Option Str) (content : Str) : Str :=
  let titleHtml := match title with
    | some titleText =>
      strOf "<div class=\"terminal-frame-title\">" ++ escapeHtml titleText ++ strOf "</div>"
    | none => []
  strOf "<div class=\"terminal-frame\">" ++ titleHtml ++ content ++ strOf "</div>"

/-- Models the HTML `Renderer::render_metric`. -/
def renderMetricHtml (name value : Str) (unit : Option Str) (trend : Option Rat) : Str :=
  let escapedValue := escapeHtml value
  let valueWithUnit := match unit with
    | some u => escapedValue ++ [' '] ++ escapeHtml u
    | none => escapedValue
  strOf "<div class=\"terminal-metric\">\n                <span class=\"terminal-metric-name\">" ++
    escapeHtml name ++
    strOf "</span>\n                <span class=\"terminal-metric-value " ++
    getTrendClass trend ++ strOf "\">" ++ valueWithUnit ++
    strOf "\n                </span>\n            </div>"

/-- The log-level CSS class selection of the HTML `render_log_entry`. -/
def logLevelClass (level : Str) : Str :=
  let lu := level.map Char.toUpper
  if lu = strOf "DEBUG" then strOf "terminal-log-debug"
  else if lu = strOf "INFO" then strOf "terminal-log-info"
  else if lu = strOf "WARNING" ∨ lu = strOf "WARN" then strOf "terminal-log-warning"
  else if lu = strOf "ERROR" then strOf "terminal-log-error"
  else strOf "terminal-log-info"

/-- Models the HTML `Renderer::render_log_entry`. -/
def renderLogEntryHtml (message level : Str) (timestamp source : Option Str) : Str :=
  let pfx := match timestamp, source with
    | some ts, some src =>
      ['['] ++ escapeHtml ts ++ strOf "] [" ++ escapeHtml src ++ strOf "] "
    | some ts, none => ['['] ++ escapeHtml ts ++ strOf "] "
    | none, some src => ['['] ++ escapeHtml src ++ strOf "] "
    | none, none => []
  strOf "<div class=\"terminal-log " ++ logLevelClass level ++
    strOf "\">\n                <span class=\"terminal-log-prefix\">" ++ pfx ++
    strOf "</span>\n                <span class=\"terminal-log-message\">" ++
    escapeHtml message ++ strOf "</span>\n            </div>"

/-- Models the HTML `Renderer::render_table`: every cell (header and data)
is escaped; a row renders however many cells it has. -/
def renderTableHtml (headers : List Str) (rows : List (List Str)) : Str :=
  let headerCells := joinSep [] (headers.map (fun h => strOf "<th>" ++ escapeHtml h ++ strOf "</th>"))
  let headerRow := if !headers.isEmpty then strOf "<tr>" ++ headerCells ++ strOf "</tr>" else []
  let tableRows := joinSep []
    (rows.map (fun row =>
      strOf "<tr>" ++
        joinSep [] (row.map (fun cell => strOf "<td>" ++ escapeHtml cell ++ strOf "</td>")) ++
        strOf "</tr>"))
  strOf "<table class=\"terminal-table\">\n                <thead>" ++ headerRow ++
    strOf "</thead>\n                <tbody>" ++ tableRows ++
    strOf "</tbody>\n            </table>"

/-- Models the HTML `Renderer::render_trace`. -/
def renderTraceHtml (name : Str) (durationMs : Nat) (startTime status : Str)
    (metadata : List (Str × Str)) : Str :=
  let metadataHtml :=
    if !metadata.isEmpty then
      strOf "<div class=\"terminal-trace-metadata\">" ++
        joinSep (strOf ", ")
          (metadata.map (fun kv =>
            strOf "<span class=\"terminal-trace-metadata-item\">\n                            <span class=\"terminal-trace-metadata-key\">" ++
            escapeHtml kv.1 ++
            strOf "</span>: \n                            <span class=\"terminal-trace-metadata-value\">" ++
            escapeHtml kv.2 ++ strOf "</span>\n                        </span>")) ++
        strOf "</div>"
    else []
  strOf "<div class=\"terminal-trace\">\n                <div class=\"terminal-trace-header\">\n                    <span class=\"terminal-trace-name\">" ++
    escapeHtml name ++
    strOf "</span>\n                    <span class=\"terminal-trace-duration\">" ++
    natStr durationMs ++
    strOf " ms</span>\n                </div>\n                <div class=\"terminal-trace-details\">\n                    Started: " ++
    escapeHtml startTime ++ strOf ", Status: " ++ escapeHtml status ++
    strOf "\n                </div>\n                " ++ metadataHtml ++
    strOf "\n            </div>"

mutual
/-- Models the default `Renderer::render_block` dispatch as instantiated by
the HTML renderer.  `Raw` content is passed through verbatim (unescaped). -/
def renderBlockHtml (r : HtmlRenderer) : Block → Str
  | .heading level text => renderHeadingHtml level text
  | .paragraph text => renderParagraphHtml text
  | .commandPrompt command => renderCommandHtml command
  | .output blocks => renderOutputHtml (renderBlocksHtml r blocks)
  | .frame title content => renderFrameHtml title (renderBlocksHtml r content)
  | .metric name value unit trend => renderMetricHtml name value unit trend
  | .logEntry message level timestamp source =>
    renderLogEntryHtml message level timestamp source
  | .table headers rows => renderTableHtml headers rows
  | .trace name durationMs startTime status metadata =>
    renderTraceHtml name durationMs startTime status metadata
  | .raw content => content
  | .container blocks => renderBlocksHtml r blocks
  termination_by structural b => b

/-- Models the default `Renderer::render_blocks` for the HTML renderer. -/
def renderBlocksHtml (r : HtmlRenderer) : Blocks → Str
  | .nil => []
  | .cons b rest => renderBlockHtml r b ++ renderBlocksHtml r rest
  termination_by structural bs => bs
end

/-- Models the HTML `Renderer::render_template`: one self-contained document
whose `<title>` receives the template name (not escaped by the source) and
whose body wraps the rendered blocks in the configured class list. -/
def renderTemplateHtml (r : HtmlRenderer) (templateName : Str) (blocks : Blocks) : Str :=
  let content := renderBlocksHtml r blocks
  let classList :=
    if r.additionalClasses.isEmpty then strOf "terminal"
    else strOf "terminal " ++ joinSep (strOf " ") r.additionalClasses
  let styleTag :=
    if r.includeInlineCss then strOf "<style>" ++ getTerminalCss ++ strOf "</style>"
    else []
  strOf "<!DOCTYPE html>\n            <html lang=\"en\">\n            <head>\n                <meta charset=\"UTF-8\">\n                <meta name=\"viewport\" content=\"width=device-width, initial-scale=1.0\">\n                <title>" ++
    templateName ++ strOf "</title>\n                " ++ styleTag ++
    strOf "\n            </head>\n            <body>\n                <div class=\"" ++
    classList ++ strOf "\">" ++ content ++
    strOf "\n                </div>\n            </body>\n            </html>"

/-- Models `TemplateEngine::render` after the template has been loaded (file
I/O and the cache are outside the claims): bind the block tree, render with
the text renderer, then run the final variable substitution.  `now` stands
for the `chrono::Utc::now()` timestamp read by the text renderer's footer. -/
def renderLoadedText (r : TextRenderer) (templateName : Str) (blocks : Blocks)
    (ctx : TemplateContext) (now : Str) : Option Str :=
  (renderTemplateText r templateName now (processBlocks ctx blocks)).map
    (substituteVariables ctx.vars)

/-- Models `TemplateEngine::render` with the HTML renderer (which reads no
clock): bind, render, substitute. -/
def renderLoadedHtml (r : HtmlRenderer) (templateName : Str) (blocks : Blocks)
    (ctx : TemplateContext) : Str :=
  substituteVariables ctx.vars (renderTemplateHtml r templateName (processBlocks ctx blocks))

example : escapeHtml (strOf "a<b") = strOf "a&lt;b" := rfl

example : renderTableHtml [strOf "H"] [[strOf "c1", strOf "c2"]] =
    strOf "<table class=\"terminal-table\">\n                <thead><tr><th>H</th></tr></thead>\n                <tbody><tr><td>c1</td><td>c2</td></tr></tbody>\n            </table>" := rfl

mutual
/-- True when a block contains no `Raw` marker that the binder would expand
(that is, no `Raw` whose *trimmed* content is `@metrics`, `@logs` or
`@traces`), at any nesting depth. -/
def noMarkerB : Block → Bool
  | .raw content =>
    !(rustTrim content = strOf "@metrics" || rustTrim content = strOf "@logs" ||
      rustTrim content = strOf "@traces")
  | .container nested => noMarkersB nested
  | .frame _ content => noMarkersB content
  | .output nested => noMarkersB nested
  | _ => true
  termination_by structural b => b

/-- True when no block of the sequence contains a binder marker. -/
def noMarkersB : Blocks → Bool
  | .nil => true
  | .cons b rest => noMarkerB b && noMarkersB rest
  termination_by structural bs => bs
end

/-- The exact substitution token for a variable name: `[[name]]`. -/
def varToken (name : Str) : Str := strOf "[[" ++ name ++ strOf "]]"

/-- The number of characters of `s` that an HTML renderer must escape,
`&` excluded (the escapes themselves contain `&`): occurrences of `<`, `>`,
`"` and `'`. -/
def badCount (s : Str) : Nat :=
  s.count '<' + s.count '>' + s.count '"' + s.count '\''

/-- Closed lines: each line followed by a newline (the accumulator shape of
the word-wrapping loop). -/
def joinClosed (lineList : List Str) : Str := concatMapS (fun l => l ++ ['\n']) lineList

/-- An empty template context. -/
def emptyCtx : TemplateContext := ⟨[], [], [], []⟩

/-- The context used by the `@var` claim: `x` is bound. -/
def varCtx : TemplateContext := ⟨[(strOf "x", strOf "v")], [], [], []⟩

/-- An HTML renderer configured without the inline stylesheet (keeps the
concrete renders below small; the `<title>` interpolation under scrutiny is
independent of this flag). -/
def htmlNoCss : HtmlRenderer := ⟨[], false⟩

/-- Claim C1, counterexample.  The claim asserts that the post-render
substitution pass resolves `@var{name}` markers when `name` is a key of the
context variables.  It does not: on the template `@var{x}` with variables
`{x ↦ v}`, the parser emits the `Raw` marker, the binder leaves it, the text
renderer prints it verbatim, and the substitution pass (which only replaces
`[[name]]` tokens) leaves the literal text `@var{x}` in the final output of
`render`. -/
theorem c1_var_marker_survives_render :
    (lookupA (strOf "x") varCtx.vars).isSome = true ∧
    parse (strOf "@var\x7bx\x7d") = .ok (.cons (.raw (strOf "@var\x7bx\x7d")) .nil) ∧
    (renderLoadedText textRendererNew (strOf "t")
      (.cons (.raw (strOf "@var\x7bx\x7d")) .nil) varCtx
      (strOf "2025-01-01T00:00:00Z")).isSome = true ∧
    occursB (strOf "@var\x7bx\x7d")
      ((renderLoadedText textRendererNew (strOf "t")
        (.cons (.raw (strOf "@var\x7bx\x7d")) .nil) varCtx
        (strOf "2025-01-01T00:00:00Z")).getD []) = true :=
  ⟨rfl, rfl, rfl, rfl⟩

/-- Claim C1, amended.  What actually holds: the parser emits the `Raw`
marker `@var{name}`, the binder leaves it untouched, and the Template
Engine's post-render substitution pass replaces only `[[name]]` tokens —
an `@var{name}` marker survives as literal text in the final output even
when `name` is a key of `context.variables`, while the `[[name]]` spelling
is resolved. -/
theorem c1_var_marker_two_phase :
    parse (strOf "@var\x7bx\x7d") = .ok (.cons (.raw (strOf "@var\x7bx\x7d")) .nil) ∧
    processBlocks varCtx (.cons (.raw (strOf "@var\x7bx\x7d")) .nil) =
      .cons (.raw (strOf "@var\x7bx\x7d")) .nil ∧
    substituteVariables varCtx.vars (strOf "@var\x7bx\x7d") = strOf "@var\x7bx\x7d" ∧
    substituteVariables varCtx.vars (strOf "[[x]]") = strOf "v" :=
  ⟨rfl, rfl, rfl, rfl⟩

theorem peekAt_eq (c : Str) (p : Nat) (hp : p < c.length) :
    peekAt c p = c.getD p chNul := by
  simp [peekAt, isAtEnd, Nat.not_le.mpr hp]

theorem peekNextAt_eq (c : Str) (p : Nat) (hp : p < c.length) :
    peekNextAt c p = c.getD (p + 1) chNul := by
  simp only [peekNextAt, isAtEnd, decide_eq_true_eq]
  rw [if_neg (by omega)]
  by_cases h : c.length ≤ p + 1
  · rw [if_pos h, List.getD_eq_default _ _ h]
  · rw [if_neg h]

theorem getD_of_drop (c : Str) (p k : Nat) (d : Char) :
    c.getD (p + k) d = (c.drop p).getD k d := by
  simp [List.getD_eq_getElem?_getD, List.getElem?_drop]

theorem parseUntilGo_stop (fuel : Nat) (c : Str) (p : Nat) (ec : Char)
    (h : c.length ≤ p ∨ peekAt c p = ec) : parseUntilGo fuel c p ec = p := by
  cases fuel with
  | zero => rfl
  | succ f =>
    simp only [parseUntilGo]
    rw [if_neg]
    rcases h with h | h
    · simp [isAtEnd, h]
    · simp [h]

theorem parseUntilGo_step (fuel : Nat) (c : Str) (p : Nat) (ec ch : Char)
    (hp : p < c.length) (hch : peekAt c p = ch) (hne : ch ≠ ec) (hnb : ch ≠ '\\') :
    parseUntilGo (fuel + 1) c p ec = parseUntilGo fuel c (p + 1) ec := by
  simp only [parseUntilGo]
  rw [if_pos (by simp [isAtEnd, Nat.not_le.mpr hp, hch, hne]),
    if_neg (by simp [hch, hnb])]

theorem parseUntilGo_step_esc (fuel : Nat) (c : Str) (p : Nat) (ec : Char)
    (hp : p < c.length) (h1 : peekAt c p = '\\') (hne : ('\\' : Char) ≠ ec)
    (h2 : peekNextAt c p = ec) :
    parseUntilGo (fuel + 1) c p ec = parseUntilGo fuel c (p + 2) ec := by
  simp only [parseUntilGo]
  rw [if_pos (by simp [isAtEnd, Nat.not_le.mpr hp, h1, hne]),
    if_pos (by simp [h1, h2])]

theorem parseUntilGo_fuel_congr (ec : Char) :
    ∀ (fuel₁ : Nat) (c : Str) (p fuel₂ : Nat), c.length ≤ p + fuel₁ → c.length ≤ p + fuel₂ →
      parseUntilGo fuel₁ c p ec = parseUntilGo fuel₂ c p ec := by
  intro fuel₁
  induction fuel₁ with
  | zero =>
    intro c p fuel₂ h1 h2
    rw [parseUntilGo_stop, parseUntilGo_stop] <;> exact Or.inl (by omega)
  | succ f ih =>
    intro c p fuel₂ h1 h2
    by_cases hp : p < c.length
    · cases fuel₂ with
      | zero =>
        rw [parseUntilGo_stop, parseUntilGo_stop] <;> exact Or.inl (by omega)
      | succ f₂ =>
        simp only [parseUntilGo]
        split
        · split
          · exact ih c (p + 2) f₂ (by omega) (by omega)
          · exact ih c (p + 1) f₂ (by omega) (by omega)
        · rfl
    · rw [parseUntilGo_stop, parseUntilGo_stop] <;> exact Or.inl (by omega)

theorem parseUntilGo_skip (ec : Char) :
    ∀ (a : Str) (c : Str) (p fuel : Nat) (z : Str),
      (∀ ch ∈ a, ch ≠ ec ∧ ch ≠ '\\') →
      c.drop p = a ++ z →
      c.length ≤ p + fuel →
      parseUntilGo fuel c p ec =
        parseUntilGo (c.length - (p + a.length) + 1) c (p + a.length) ec := by
  intro a
  induction a with
  | nil =>
    intro c p fuel z _ _ hf
    simpa using parseUntilGo_fuel_congr ec fuel c p (c.length - p + 1) hf (by omega)
  | cons ch a' ih =>
    intro c p fuel z ha hdrop hf
    have hlen : (c.drop p).length = c.length - p := List.length_drop p c
    have hp : p < c.length := by
      rw [hdrop] at hlen
      simp at hlen
      omega
    obtain ⟨f, rfl⟩ : ∃ f, fuel = f + 1 := ⟨fuel - 1, by omega⟩
    have hch : peekAt c p = ch := by
      rw [peekAt_eq c p hp, show p = p + 0 from by omega, getD_of_drop, hdrop]
      rfl
    have hcha := ha ch (List.mem_cons_self ch a')
    rw [parseUntilGo_step f c p ec ch hp hch hcha.1 hcha.2]
    have hdrop' : c.drop (p + 1) = a' ++ z := by
      rw [← List.tail_drop, hdrop]
      rfl
    rw [ih c (p + 1) f z (fun x hx => ha x (List.mem_cons_of_mem _ hx)) hdrop' (by omega)]
    rw [show p + 1 + a'.length = p + (ch :: a').length from by simp only [List.length_cons]; omega]

theorem parseUntil_escape (a b : Str)
    (ha1 : '\x7d' ∉ a) (ha2 : '\\' ∉ a) (hb1 : '\x7d' ∉ b) (hb2 : '\\' ∉ b) :
    parseUntil (a ++ '\\' :: '\x7d' :: (b ++ ['\x7d'])) 0 '\x7d' =
      .ok (a ++ '\\' :: '\x7d' :: b, a.length + 2 + b.length) := by
  have haf : ∀ ch ∈ a, ch ≠ '\x7d' ∧ ch ≠ '\\' :=
    fun ch hch => ⟨fun h => ha1 (h ▸ hch), fun h => ha2 (h ▸ hch)⟩
  have hbf : ∀ ch ∈ b, ch ≠ '\x7d' ∧ ch ≠ '\\' :=
    fun ch hch => ⟨fun h => hb1 (h ▸ hch), fun h => hb2 (h ▸ hch)⟩
  set c : Str := a ++ '\\' :: '\x7d' :: (b ++ ['\x7d']) with hc
  have hlen : c.length = a.length + b.length + 3 := by
    simp [hc]
    omega
  have h1 : parseUntilGo (c.length - 0 + 1) c 0 '\x7d' =
      parseUntilGo (c.length - a.length + 1) c a.length '\x7d' := by
    have := parseUntilGo_skip '\x7d' a c 0 (c.length - 0 + 1)
      ('\\' :: '\x7d' :: (b ++ ['\x7d'])) haf (by simp [hc]) (by omega)
    simpa using this
  have hdropa : c.drop a.length = '\\' :: '\x7d' :: (b ++ ['\x7d']) := by
    rw [hc, List.drop_left]
  have h2 : parseUntilGo (c.length - a.length + 1) c a.length '\x7d' =
      parseUntilGo (c.length - a.length) c (a.length + 2) '\x7d' := by
    have hplt : a.length < c.length := by omega
    refine parseUntilGo_step_esc (c.length - a.length) c a.length '\x7d' hplt ?_ (by decide) ?_
    · rw [peekAt_eq c a.length hplt, show a.length = a.length + 0 from by omega,
        getD_of_drop, hdropa]
      rfl
    · rw [peekNextAt_eq c a.length hplt, getD_of_drop, hdropa]
      rfl
  have hassoc2 : c = (a ++ ['\\', '\x7d']) ++ (b ++ ['\x7d']) := by simp [hc]
  have hdropb : c.drop (a.length + 2) = b ++ ['\x7d'] := by
    rw [hassoc2, show a.length + 2 = (a ++ ['\\', '\x7d']).length from by simp,
      List.drop_left]
  have h3 : parseUntilGo (c.length - a.length) c (a.length + 2) '\x7d' =
      parseUntilGo (c.length - (a.length + 2 + b.length) + 1) c
        (a.length + 2 + b.length) '\x7d' := by
    have := parseUntilGo_skip '\x7d' b c (a.length + 2) (c.length - a.length)
      ['\x7d'] hbf hdropb (by omega)
    rw [this]
  have hdropq : c.drop (a.length + 2 + b.length) = ['\x7d'] := by
    have hassoc3 : c = ((a ++ ['\\', '\x7d']) ++ b) ++ ['\x7d'] := by simp [hc]
    rw [hassoc3, show a.length + 2 + b.length = ((a ++ ['\\', '\x7d']) ++ b).length from by
      simp; omega, List.drop_left]
  have hqlt : a.length + 2 + b.length < c.length := by omega
  have h4 : parseUntilGo (c.length - (a.length + 2 + b.length) + 1) c
      (a.length + 2 + b.length) '\x7d' = a.length + 2 + b.length := by
    refine parseUntilGo_stop _ c _ '\x7d' (Or.inr ?_)
    rw [peekAt_eq c _ hqlt, show a.length + 2 + b.length = a.length + 2 + b.length + 0 from
      by omega, getD_of_drop, hdropq]
    rfl
  have htake : c.take (a.length + 2 + b.length) = a ++ '\\' :: '\x7d' :: b := by
    have hassoc4 : c = (a ++ '\\' :: '\x7d' :: b) ++ ['\x7d'] := by simp [hc]
    rw [hassoc4, show a.length + 2 + b.length = (a ++ '\\' :: '\x7d' :: b).length from by
      simp; omega, List.take_left]
  simp only [parseUntil, Nat.sub_zero] at *
  rw [show parseUntilGo (c.length + 1) c 0 '\x7d' = a.length + 2 + b.length from by
    rw [h1, h2, h3, h4]]
  rw [if_neg (by simp [isAtEnd]; omega)]
  simp only [List.drop_zero, Nat.sub_zero, htake]

/-- Claim C2, counterexample.  The claim asserts the escape backslash is
consumed, so that `@paragraph{a\}b}` yields the paragraph text `a}b`.  In
the source, `parse_until` steps over the escaped brace but returns the slice
`content[start..position]`, which still contains the backslash: the
directive yields the text `a\}b`, not `a}b`. -/
theorem c2_escape_backslash_retained :
    parse (strOf "@paragraph\x7ba\\\x7db\x7d") =
      .ok (.cons (.paragraph (strOf "a\\\x7db")) .nil) ∧
    strOf "a\\\x7db" ≠ strOf "a\x7db" := by
  exact ⟨rfl, by decide⟩

/-- Claim C2, amended.  Parsing a directive argument stops at the first
unescaped `}`; a backslash immediately before `}` makes the scanner continue
past the escaped brace, but the backslash (and the escaped brace) remain in
the parsed argument text.  Stated generally: for any body `a\}b` whose
fragments `a` and `b` contain no brace or backslash of their own,
`parse_until` on `a\}b}` steps over the escape, stops at the final unescaped
`}`, and returns the slice `a\}b` with the backslash retained; concretely,
both escapes in `@paragraph{a\}b\}c}` are passed over and retained. -/
theorem c2_escaped_brace_continues_body (a b : Str)
    (ha1 : '\x7d' ∉ a) (ha2 : '\\' ∉ a) (hb1 : '\x7d' ∉ b) (hb2 : '\\' ∉ b) :
    parseUntil (a ++ '\\' :: '\x7d' :: (b ++ ['\x7d'])) 0 '\x7d' =
      .ok (a ++ '\\' :: '\x7d' :: b, a.length + 2 + b.length) ∧
    parse (strOf "@paragraph\x7ba\\\x7db\\\x7dc\x7d") =
      .ok (.cons (.paragraph (strOf "a\\\x7db\\\x7dc")) .nil) :=
  ⟨parseUntil_escape a b ha1 ha2 hb1 hb2, rfl⟩

/-- Claim C2, amended, witness: the general statement applied at the concrete
body fragments `ab` and `cd`. -/
theorem c2_escaped_brace_continues_body_witness :
    parseUntil (strOf "ab" ++ '\\' :: '\x7d' :: (strOf "cd" ++ ['\x7d'])) 0 '\x7d' =
      .ok (strOf "ab" ++ '\\' :: '\x7d' :: strOf "cd",
        (strOf "ab").length + 2 + (strOf "cd").length) ∧
    parse (strOf "@paragraph\x7ba\\\x7db\\\x7dc\x7d") =
      .ok (.cons (.paragraph (strOf "a\\\x7db\\\x7dc")) .nil) :=
  c2_escaped_brace_continues_body (strOf "ab") (strOf "cd")
    (by decide) (by decide) (by decide) (by decide)

/-- Claim C3, counterexample.  The claim asserts the frame title is optional
and `@frame{@paragraph{x}}` parses to a title-less frame.  In the source,
`parse_frame_directive` always consumes a first brace group as the title
(scanned by `parse_until`, not by brace counting) and then requires a second
group: the single-group form is rejected with a parse error. -/
theorem c3_frame_title_not_optional :
    isOkE (parse (strOf "@frame\x7b@paragraph\x7bx\x7d\x7d")) = false := rfl

/-- Claim C3, amended.  A successful `@frame` always has two brace groups:
the first becomes the title (every successful parse has `title = Some …`;
a frame with absent title is unreachable because the body group itself
begins with `{`), and the second is extracted by brace-depth counting and
recursively parsed as the body. -/
theorem c3_frame_two_groups :
    parse (strOf "@frame\x7bT\x7d\x7b@paragraph\x7bx\x7d\x7d") =
      .ok (.cons (.frame (some (strOf "T")) (.cons (.paragraph (strOf "x")) .nil)) .nil) ∧
    isOkE (parse (strOf "@frame\x7babc\x7d")) = false :=
  ⟨rfl, rfl⟩

/-- Claim C9 (confirmed).  `Heading.level` is normalized to [1,6] at render
time, not at parse time: for every level `n` and text, both renderers render
the heading exactly as they render level `min (max n 1) 6` (the source's
`level.min(6).max(1)` clamp), while the parser stores the raw numeric value
unclamped — `@heading{0}{T}` stores level 0 and `@heading{7}{T}` stores
level 7. -/
theorem c9_heading_clamp_at_render :
    (∀ (n : Nat) (t : Str),
      renderHeadingText n t = renderHeadingText (min (max n 1) 6) t ∧
      renderHeadingHtml n t = renderHeadingHtml (min (max n 1) 6) t) ∧
    parse (strOf "@heading\x7b0\x7d\x7bT\x7d") = .ok (.cons (.heading 0 (strOf "T")) .nil) ∧
    parse (strOf "@heading\x7b7\x7d\x7bT\x7d") = .ok (.cons (.heading 7 (strOf "T")) .nil) := by
  refine ⟨?_, rfl, rfl⟩
  intro n t
  have h : max (min (min (max n 1) 6) 6) 1 = max (min n 6) 1 := by omega
  constructor
  · simp only [renderHeadingText, h]
  · simp only [renderHeadingHtml, h]

/-- Claim C10 (the totality claim; settled as a code bug).  On the input
`"@metricé"`, `parse_block` consumes `@` (byte position 1) and calls
`match_string("metrics")`: `end_pos = 1 + 7 = 8` is within the 9-byte input,
but byte 8 is the continuation byte of the two-byte character `é`, so the
slice `content[1..8]` panics in Rust ("byte index 8 is not a char
boundary") — the parser neither returns a block sequence nor an error.  The
byte-level model returns the panic value on exactly that call. -/
theorem c10_match_string_panics :
    matchStringBytes (strOf "@metric" ++ [Char.ofNat 233]) 1 (strOf "metrics") =
      .error () ∧
    (strBytes (strOf "@metric" ++ [Char.ofNat 233])).length = 9 ∧
    isCharBoundary (strBytes (strOf "@metric" ++ [Char.ofNat 233])) 8 = false :=
  ⟨rfl, rfl, rfl⟩

mutual
/-- Helper for claim C5: a block without binder markers is passed through
unchanged by the per-block rewriting. -/
theorem processBlock_id_aux (ctx : TemplateContext) (b : Block)
    (h : noMarkerB b = true) : processBlock ctx b = .cons b .nil := by
  cases b with
  | raw content =>
    simp only [noMarkerB, Bool.not_eq_true', Bool.or_eq_false_iff,
      decide_eq_false_iff_not] at h
    simp only [processBlock]
    rw [if_neg h.1.1, if_neg h.1.2, if_neg h.2]
  | container nested =>
    simp only [noMarkerB] at h
    simp only [processBlock, processBlocks_id_aux ctx nested h]
  | frame title content =>
    simp only [noMarkerB] at h
    simp only [processBlock, processBlocks_id_aux ctx content h]
  | output nested =>
    simp only [noMarkerB] at h
    simp only [processBlock, processBlocks_id_aux ctx nested h]
  | heading level text => rfl
  | paragraph text => rfl
  | commandPrompt text => rfl
  | metric name value unit trend => rfl
  | logEntry message level timestamp source => rfl
  | table headers rows => rfl
  | trace name durationMs startTime status metadata => rfl
  termination_by structural b

/-- Helper for claim C5: a marker-free tree is returned unchanged by the
binder. -/
theorem processBlocks_id_aux (ctx : TemplateContext) (bs : Blocks)
    (h : noMarkersB bs = true) : processBlocks ctx bs = bs := by
  cases bs with
  | nil => rfl
  | cons b rest =>
    simp only [noMarkersB, Bool.and_eq_true] at h
    simp only [processBlocks, processBlock_id_aux ctx b h.1,
      processBlocks_id_aux ctx rest h.2]
    rfl
  termination_by structural bs
end

/-- Claim C5, counterexample.  The claim asserts idempotence for any tree
with no `Raw("@metrics")`, `Raw("@logs")` or `Raw("@traces")` marker.  The
binder, however, matches markers *after trimming*: the tree
`[Raw(" @metrics")]` (producible from the markup `@raw{ @metrics}`) contains
none of those exact markers, yet binding against an empty context rewrites
it to `[Raw("<!-- Metrics: 0 -->")]`. -/
theorem c5_trimmed_marker_rebinding :
    processBlocks emptyCtx (.cons (.raw (strOf " @metrics")) .nil) =
      .cons (.raw (strOf "<!-- Metrics: 0 -->")) .nil ∧
    Blocks.cons (.raw (strOf "<!-- Metrics: 0 -->")) .nil ≠
      .cons (.raw (strOf " @metrics")) .nil := by
  refine ⟨rfl, ?_⟩
  intro h
  injection h with hb ht
  injection hb with hs
  exact absurd hs (by decide)

/-- Claim C5, amended.  Binding is idempotent on an already-bound tree where
a marker is any `Raw` block whose *trimmed* content equals `@metrics`,
`@logs` or `@traces`: for every context, binding a tree containing no such
marker at any nesting depth inside `Frame`, `Output` or `Container`
children returns the tree unchanged, with all non-container variants passing
through untouched. -/
theorem c5_binding_idempotent_amended (ctx : TemplateContext) (bs : Blocks)
    (h : noMarkersB bs = true) : processBlocks ctx bs = bs :=
  processBlocks_id_aux ctx bs h

/-- Witness for claim C5's amended theorem at a concrete marker-free tree. -/
theorem c5_binding_idempotent_witness :
    processBlocks varCtx
      (.cons (.heading 1 (strOf "T"))
        (.cons (.frame (some (strOf "F")) (.cons (.raw (strOf "@var\x7bx\x7d")) .nil))
          .nil)) =
      .cons (.heading 1 (strOf "T"))
        (.cons (.frame (some (strOf "F")) (.cons (.raw (strOf "@var\x7bx\x7d")) .nil))
          .nil) :=
  c5_binding_idempotent_amended varCtx _ (by rfl)

/-- Helper: string replacement is the identity when the pattern does not
occur in the text. -/
theorem replGo_no_occurrence (fuel : Nat) (s pat rep : Str)
    (h : occursB pat s = false) : replGo fuel s pat rep = s := by
  induction fuel generalizing s with
  | zero => rfl
  | succ fuel ih =>
    cases s with
    | nil => rfl
    | cons ch rest =>
      simp only [occursB, Bool.or_eq_false_iff] at h
      simp only [replGo]
      rw [if_neg (by simp [h.1]), ih rest h.2]

/-- Helper: `rustReplace` is the identity when the pattern does not occur. -/
theorem rustReplace_id (s pat rep : Str) (h : occursB pat s = false) :
    rustReplace s pat rep = s :=
  replGo_no_occurrence _ s pat rep h

/-- Helper: the substitution pass leaves text containing none of the
variables' tokens unchanged. -/
theorem substVars_id (vars : List (Str × Str)) (s : Str)
    (h : ∀ nv ∈ vars, occursB (varToken nv.1) s = false) :
    substituteVariables vars s = s := by
  induction vars with
  | nil => rfl
  | cons nv rest ih =>
    simp only [substituteVariables, List.foldl_cons]
    rw [show strOf "[[" ++ nv.1 ++ strOf "]]" = varToken nv.1 from rfl,
      rustReplace_id s (varToken nv.1) nv.2 (h nv (List.mem_cons_self nv rest))]
    exact ih (fun nv' h' => h nv' (List.mem_cons_of_mem _ h'))

/-- Claim C4, counterexample.  The claim asserts the result of the final
substitution pass does not depend on the iteration order of the variable
mapping.  The pass applies `str::replace` sequentially per entry, rescanning
the accumulated result, so when one variable's value contains another
variable's token the order matters: on `[[a]]` with the mapping
`{a ↦ "[[b]]", b ↦ "X"}` (a `HashMap`, whose iteration order is
unspecified), one order yields `X` and the other `[[b]]`. -/
theorem c4_substitution_order_dependent :
    List.Perm [(strOf "a", strOf "[[b]]"), (strOf "b", strOf "X")]
      [(strOf "b", strOf "X"), (strOf "a", strOf "[[b]]")] ∧
    substituteVariables [(strOf "a", strOf "[[b]]"), (strOf "b", strOf "X")]
        (strOf "[[a]]") = strOf "X" ∧
    substituteVariables [(strOf "b", strOf "X"), (strOf "a", strOf "[[b]]")]
        (strOf "[[a]]") = strOf "[[b]]" ∧
    strOf "X" ≠ strOf "[[b]]" := by
  refine ⟨by decide, rfl, rfl, by decide⟩

/-- Claim C4, amended.  The pass never fails and replaces tokens by applying,
for each variable entry in the mapping's iteration order, a global
`[[name]]` → value replacement on the accumulated text: every original
occurrence of a mapped token is replaced (`[[current_time]]` resolves),
tokens whose name has no mapping are left verbatim (`[[missing]]`
survives), and text containing no mapped token at all is left entirely
unchanged — but when a value itself contains another variable's token the
result can depend on the iteration order. -/
theorem c4_substitution_amended :
    (∀ (vars : List (Str × Str)) (s : Str),
      (∀ nv ∈ vars, occursB (varToken nv.1) s = false) →
      substituteVariables vars s = s) ∧
    substituteVariables [(strOf "current_time", strOf "2025-01-01T00:00:00Z")]
        (strOf "t=[[current_time]]; m=[[missing]]") =
      strOf "t=2025-01-01T00:00:00Z; m=[[missing]]" :=
  ⟨substVars_id, rfl⟩

/-- Witness for claim C4's amended theorem at a concrete token-free text. -/
theorem c4_substitution_amended_witness :
    substituteVariables [(strOf "a", strOf "b")] (strOf "hello world") =
      strOf "hello world" :=
  c4_substitution_amended.1 [(strOf "a", strOf "b")] (strOf "hello world") (by decide)

/-- Helper: splitting never yields an empty chunk list. -/
theorem splitChar_ne_nil (sep : Char) (s : Str) : splitChar sep s ≠ [] := by
  induction s with
  | nil => simp [splitChar]
  | cons ch rest ih =>
    simp only [splitChar]
    split
    · simp
    · cases h : splitChar sep rest with
      | nil => exact absurd h ih
      | cons l ls => simp

/-- Helper: a newline splits the surrounding chunks cleanly. -/
theorem splitNl_append_nl (x y : Str) :
    splitNl (x ++ '\n' :: y) = splitNl x ++ splitNl y := by
  induction x with
  | nil => simp [splitNl, splitChar]
  | cons c x' ih =>
    by_cases hc : c = '\n'
    · subst hc
      show splitChar '\n' ('\n' :: (x' ++ '\n' :: y)) =
        splitChar '\n' ('\n' :: x') ++ splitNl y
      simp only [splitChar, if_pos rfl]
      rw [show splitChar '\n' (x' ++ '\n' :: y) = splitNl (x' ++ '\n' :: y) from rfl, ih]
      rfl
    · show splitChar '\n' (c :: (x' ++ '\n' :: y)) =
        splitChar '\n' (c :: x') ++ splitNl y
      simp only [splitChar, if_neg hc]
      rw [show splitChar '\n' (x' ++ '\n' :: y) = splitNl (x' ++ '\n' :: y) from rfl, ih]
      cases h : splitChar '\n' x' with
      | nil => exact absurd h (splitChar_ne_nil '\n' x')
      | cons l ls =>
        rw [show splitNl x' = splitChar '\n' x' from rfl, h]
        rfl

/-- Helper: a newline-free string is a single chunk. -/
theorem splitNl_no_nl (a : Str) (ha : '\n' ∉ a) : splitNl a = [a] := by
  induction a with
  | nil => rfl
  | cons c a' ih =>
    simp only [List.mem_cons, not_or] at ha
    show splitChar '\n' (c :: a') = [c :: a']
    have hc : ¬c = '\n' := fun h => ha.1 (Eq.symm h)
    simp only [splitChar, if_neg hc]
    rw [show splitChar '\n' a' = splitNl a' from rfl, ih ha.2]

/-- Helper: `concatMapS` distributes over append. -/
theorem concatMapS_append (f : α → Str) (a b : List α) :
    concatMapS f (a ++ b) = concatMapS f a ++ concatMapS f b := by
  induction a with
  | nil => rfl
  | cons x a' ih => simp only [concatMapS, List.foldr_cons, List.cons_append] at *
                    rw [ih]
                    simp

/-- Helper: closing one more line extends the closed-lines text. -/
theorem joinClosed_snoc (L : List Str) (x : Str) :
    joinClosed (L ++ [x]) = joinClosed L ++ (x ++ ['\n']) := by
  simp only [joinClosed, concatMapS_append]
  simp [concatMapS]

/-- Helper: splitting a closed-lines text followed by a tail recovers the
lines and the split tail. -/
theorem splitNl_joinClosed (L : List Str) (t : Str) (hL : ∀ l ∈ L, '\n' ∉ l) :
    splitNl (joinClosed L ++ t) = L ++ splitNl t := by
  induction L with
  | nil => rfl
  | cons l L' ih =>
    have hl : '\n' ∉ l := hL l (List.mem_cons_self l L')
    have : joinClosed (l :: L') ++ t = l ++ '\n' :: (joinClosed L' ++ t) := by
      simp [joinClosed, concatMapS]
    rw [this, splitNl_append_nl, splitNl_no_nl l hl,
      ih (fun x hx => hL x (List.mem_cons_of_mem _ hx))]
    rfl

/-- Helper: every word produced by `split_whitespace` is whitespace-free. -/
theorem splitWsGo_no_ws (fuel : Nat) (s : Str) :
    ∀ w ∈ splitWsGo fuel s, ∀ c ∈ w, c.isWhitespace = false := by
  induction fuel generalizing s with
  | zero => simp [splitWsGo]
  | succ fuel ih =>
    cases s with
    | nil => simp [splitWsGo]
    | cons ch rest =>
      simp only [splitWsGo]
      split
      · exact ih rest
      · intro w hw
        rcases List.mem_cons.mp hw with h | h
        · subst h
          intro c hc
          rcases List.mem_cons.mp hc with h' | h'
          · subst h'
            simp_all
          · have := List.mem_takeWhile_imp h'
            simpa using this
        · exact ih _ w h

/-- Helper: every word of `splitWs` is whitespace-free. -/
theorem splitWs_no_ws (s : Str) :
    ∀ w ∈ splitWs s, ∀ c ∈ w, c.isWhitespace = false :=
  splitWsGo_no_ws (s.length + 1) s

/-- Helper: the word-wrapping loop (at indent 0) only produces lines of at
most `avail` characters, provided every incoming word is shorter than
`avail` and the accumulated state is well-formed. -/
theorem wrapGo_lines (avail : Nat) (words : List Str) :
    ∀ (L : List Str) (cur : Str),
      (∀ w ∈ words, '\n' ∉ w ∧ w.length < avail) →
      (∀ l ∈ L, '\n' ∉ l ∧ l.length ≤ avail) →
      '\n' ∉ cur → cur.length ≤ avail →
      ∀ l ∈ splitNl (wrapGo avail 0 words (joinClosed L) cur cur.length),
        l.length ≤ avail := by
  induction words with
  | nil =>
    intro L cur _ hL hcn hcl l hl
    simp only [wrapGo] at hl
    by_cases hc : cur = []
    · rw [if_neg (by simp [hc])] at hl
      rw [show joinClosed L = joinClosed L ++ [] by simp,
        splitNl_joinClosed L [] (fun x hx => (hL x hx).1)] at hl
      rcases List.mem_append.mp hl with h | h
      · exact (hL l h).2
      · simp only [splitNl, splitChar, List.mem_singleton] at h
        subst h; subst hc; simp
    · rw [if_pos (by simp [hc])] at hl
      rw [splitNl_joinClosed L cur (fun x hx => (hL x hx).1), splitNl_no_nl cur hcn] at hl
      rcases List.mem_append.mp hl with h | h
      · exact (hL l h).2
      · simp only [List.mem_singleton] at h
        subst h; exact hcl
  | cons word rest ih =>
    intro L cur hw hL hcn hcl
    have hword := hw word (List.mem_cons_self word rest)
    have hrest : ∀ w ∈ rest, '\n' ∉ w ∧ w.length < avail :=
      fun w h => hw w (List.mem_cons_of_mem _ h)
    simp only [wrapGo]
    by_cases h1 : avail < cur.length + word.length + 1
    · by_cases h2 : cur = []
      · -- no flush possible (current line empty); the word starts the line
        rw [if_pos h1, if_neg (by simp [h2])]
        subst h2
        rw [if_neg (by simp)]
        intro l hl
        refine ih L word hrest hL hword.1 (Nat.le_of_lt hword.2) l ?_
        simpa using hl
      · -- flush the current line, then start a new one with the word
        rw [if_pos h1, if_pos (by simp [h2])]
        rw [if_neg (by simp [spaces])]
        have hres : joinClosed L ++ cur ++ ['\n'] = joinClosed (L ++ [cur]) := by
          rw [joinClosed_snoc]; simp
        have hL' : ∀ l ∈ L ++ [cur], '\n' ∉ l ∧ l.length ≤ avail := by
          intro l hl
          rcases List.mem_append.mp hl with h | h
          · exact hL l h
          · simp only [List.mem_singleton] at h
            subst h; exact ⟨hcn, hcl⟩
        intro l hl
        refine ih (L ++ [cur]) word hrest hL' hword.1 (Nat.le_of_lt hword.2) l ?_
        rw [hres] at hl
        simpa [spaces] using hl
    · -- the word (plus a separating space) fits on the current line
      rw [if_neg h1]
      by_cases h2 : cur = []
      · rw [if_neg (by simp [h2])]
        subst h2
        intro l hl
        refine ih L word hrest hL hword.1 (by omega) l ?_
        simpa using hl
      · rw [if_pos (by simp [h2])]
        have hnn : '\n' ∉ (cur ++ [' ']) ++ word := by
          simp only [List.mem_append, List.mem_singleton]
          rintro ((h | h) | h)
          · exact hcn h
          · exact absurd h (by decide)
          · exact hword.1 h
        intro l hl
        refine ih L ((cur ++ [' ']) ++ word) hrest hL hnn ?_ l ?_
        · simp only [List.length_append, List.length_cons, List.length_nil]
          omega
        · rw [show ((cur ++ [' ']) ++ word).length = cur.length + 1 + word.length from by
            simp only [List.length_append, List.length_cons, List.length_nil]]
          exact hl

/-- Claim C7, counterexample.  The claim asserts no output line exceeds the
configured width even for a paragraph containing a single word longer than
the width.  The wrap loop never breaks inside a word: a paragraph that is
one 50-character word, rendered at width 40, produces a 50-character output
line. -/
theorem c7_long_word_exceeds_width :
    rustLines (renderParagraphText 40 (List.replicate 50 'a')) =
      [List.replicate 50 'a', []] ∧
    40 < (List.replicate 50 'a').length :=
  ⟨rfl, by decide⟩

/-- Claim C7, amended.  For every configured width above the unwrapped
cutoff (`width > 10`, below which `wrap_text` returns the text unchanged)
and every paragraph all of whose whitespace-separated words are shorter
than the width, text-style paragraph rendering produces no output line
whose character count exceeds the width. -/
theorem c7_wrap_bound_amended (width : Nat) (text : Str) (hw : 10 < width)
    (hwords : ∀ w ∈ splitWs text, w.length < width) :
    ∀ l ∈ rustLines (renderParagraphText width text), l.length ≤ width := by
  intro l hl
  have hnn : ∀ w ∈ splitWs text, '\n' ∉ w ∧ w.length < width := by
    intro w h
    refine ⟨fun hmem => ?_, hwords w h⟩
    have := splitWs_no_ws text w h '\n' hmem
    simp at this
  have hwrap : ∀ l ∈ splitNl (wrapText width text 0), l.length ≤ width := by
    intro l hl
    have h0 : wrapText width text 0 =
        wrapGo width 0 (splitWs text) (joinClosed []) [] (List.length ([] : Str)) := by
      simp only [wrapText, Nat.sub_zero]
      rw [if_neg (by omega)]
      rfl
    rw [h0] at hl
    exact wrapGo_lines width (splitWs text) [] [] hnn (by simp) (by simp) (by simp) l hl
  have hsplit : splitNl (renderParagraphText width text) =
      splitNl (wrapText width text 0) ++ [[], []] := by
    simp only [renderParagraphText]
    rw [show strOf "\n\n" = '\n' :: ('\n' :: []) from rfl, splitNl_append_nl]
    rfl
  have hlast : rustLines (renderParagraphText width text) =
      splitNl (wrapText width text 0) ++ [[]] := by
    simp only [rustLines]
    rw [if_neg (by
        simp only [renderParagraphText]
        intro h
        exact absurd (List.append_eq_nil.mp h).2 (by decide)),
      if_pos (by
        simp only [renderParagraphText]
        rw [show wrapText width text 0 ++ strOf "\n\n" =
          (wrapText width text 0 ++ ['\n']) ++ ['\n'] from by simp [strOf]]
        exact List.getLast?_concat _), hsplit]
    rw [show splitNl (wrapText width text 0) ++ [[], []] =
      (splitNl (wrapText width text 0) ++ [[]]) ++ [([] : Str)] from by simp]
    exact List.dropLast_concat
  rw [hlast] at hl
  rcases List.mem_append.mp hl with h | h
  · exact hwrap l h
  · simp only [List.mem_singleton] at h
    subst h; simp

/-- Witness for claim C7's amended theorem at a concrete width and text. -/
theorem c7_wrap_bound_witness :
    (rustLines (renderParagraphText 40 (strOf "hello world"))).all
      (fun l => decide (l.length ≤ 40)) = true := by
  have h := c7_wrap_bound_amended 40 (strOf "hello world") (by omega) (by decide)
  exact List.all_eq_true.mpr (fun l hl => decide_eq_true (h l hl))

/-- Helper: replacing `c` by a `c`-free string removes all occurrences of
`c`. -/
theorem count_replaceChar_self (c : Char) (rep s : Str) (h : rep.count c = 0) :
    (replaceChar c rep s).count c = 0 := by
  induction s with
  | nil => rfl
  | cons ch rest ih =>
    by_cases hch : ch = c
    · simp [replaceChar, hch, List.count_append, h, ih]
    · simp [replaceChar, hch, List.count_append, h, ih, List.count_cons]

/-- Helper: replacing `c` by a `d`-free string does not change the number of
occurrences of a different character `d`. -/
theorem count_replaceChar_other (d c : Char) (rep s : Str) (hd : d ≠ c)
    (h : rep.count d = 0) : (replaceChar c rep s).count d = s.count d := by
  induction s with
  | nil => rfl
  | cons ch rest ih =>
    by_cases hch : ch = c
    · subst hch
      simp [replaceChar, List.count_append, h, ih, List.count_cons,
        (by simpa using hd.symm : ¬(ch == d) = true)]
    · simp [replaceChar, hch, List.count_append, h, ih, List.count_cons]

/-- Helper: the escaped text contains no literal `<`. -/
theorem escapeHtml_count_lt (s : Str) : (escapeHtml s).count '<' = 0 := by
  simp only [escapeHtml]
  rw [count_replaceChar_other _ _ _ _ (by decide) (by decide),
    count_replaceChar_other _ _ _ _ (by decide) (by decide),
    count_replaceChar_other _ _ _ _ (by decide) (by decide),
    count_replaceChar_self _ _ _ (by decide)]

/-- Helper: the escaped text contains no literal `>`. -/
theorem escapeHtml_count_gt (s : Str) : (escapeHtml s).count '>' = 0 := by
  simp only [escapeHtml]
  rw [count_replaceChar_other _ _ _ _ (by decide) (by decide),
    count_replaceChar_other _ _ _ _ (by decide) (by decide),
    count_replaceChar_self _ _ _ (by decide)]

/-- Helper: the escaped text contains no literal `"`. -/
theorem escapeHtml_count_quot (s : Str) : (escapeHtml s).count '"' = 0 := by
  simp only [escapeHtml]
  rw [count_replaceChar_other _ _ _ _ (by decide) (by decide),
    count_replaceChar_self _ _ _ (by decide)]

/-- Helper: the escaped text contains no literal `'`. -/
theorem escapeHtml_count_apos (s : Str) : (escapeHtml s).count '\'' = 0 := by
  simp only [escapeHtml]
  rw [count_replaceChar_self _ _ _ (by decide)]

/-- Helper: counting a character that the separator lacks distributes over a
join. -/
theorem count_joinSep (c : Char) (sep : Str) (hsep : sep.count c = 0)
    (l : List Str) :
    (joinSep sep l).count c = (l.map (fun s => s.count c)).sum := by
  induction l with
  | nil => rfl
  | cons x rest ih =>
    cases rest with
    | nil => simp [joinSep]
    | cons y r =>
      simp only [joinSep, List.count_append, List.map_cons, List.sum_cons] at *
      rw [hsep, ih]
      omega

/-- Helper: the per-cell character count of an escaping cell wrapper is
independent of the cell contents (generic in the counted character, given
that escaping eliminates it). -/
theorem sum_count_cells (c : Char) (pre post : Str) (l : List Str)
    (hesc : ∀ x : Str, (escapeHtml x).count c = 0) :
    ((l.map (fun h => pre ++ escapeHtml h ++ post)).map (fun s => s.count c)).sum =
      l.length * (pre.count c + post.count c) := by
  induction l with
  | nil => simp
  | cons x rest ih =>
    simp only [List.map_cons, List.sum_cons, List.count_append, hesc, List.length_cons, ih]
    ring

/-- Helper (claim C8): the heading render's escapable-character count does
not depend on the heading text. -/
theorem count_renderHeadingHtml (c : Char) (hesc : ∀ x : Str, (escapeHtml x).count c = 0)
    (lvl : Nat) (t : Str) :
    (renderHeadingHtml lvl t).count c = (renderHeadingHtml lvl []).count c := by
  simp only [renderHeadingHtml, List.count_append, hesc]

/-- Helper (claim C8): the paragraph render's count does not depend on the
text. -/
theorem count_renderParagraphHtml (c : Char) (hesc : ∀ x : Str, (escapeHtml x).count c = 0)
    (t : Str) :
    (renderParagraphHtml t).count c = (renderParagraphHtml []).count c := by
  simp only [renderParagraphHtml, List.count_append, hesc]

/-- Helper (claim C8): the command render's count does not depend on the
command text. -/
theorem count_renderCommandHtml (c : Char) (hesc : ∀ x : Str, (escapeHtml x).count c = 0)
    (t : Str) :
    (renderCommandHtml t).count c = (renderCommandHtml []).count c := by
  simp only [renderCommandHtml, List.count_append, hesc]

/-- Helper (claim C8): the frame render's count does not depend on the title
text. -/
theorem count_renderFrameHtml (c : Char) (hesc : ∀ x : Str, (escapeHtml x).count c = 0)
    (t content : Str) :
    (renderFrameHtml (some t) content).count c =
      (renderFrameHtml (some []) content).count c := by
  simp only [renderFrameHtml, List.count_append, hesc]

/-- Helper (claim C8): the metric render's count does not depend on the
name, value or unit text. -/
theorem count_renderMetricHtml (c : Char) (hesc : ∀ x : Str, (escapeHtml x).count c = 0)
    (name value : Str) (unit : Option Str) (trend : Option Rat) :
    (renderMetricHtml name value unit trend).count c =
      (renderMetricHtml [] [] (unit.map (fun _ => [])) trend).count c := by
  cases unit <;> simp [renderMetricHtml, List.count_append, List.count_cons, hesc]

/-- Helper (claim C8): the log render's count does not depend on the
message, timestamp or source text (the level only selects a fixed CSS
class, kept equal on both sides). -/
theorem count_renderLogEntryHtml (c : Char) (hesc : ∀ x : Str, (escapeHtml x).count c = 0)
    (message level : Str) (timestamp source : Option Str) :
    (renderLogEntryHtml message level timestamp source).count c =
      (renderLogEntryHtml [] level (timestamp.map (fun _ => []))
        (source.map (fun _ => []))).count c := by
  cases timestamp <;> cases source <;>
    simp [renderLogEntryHtml, List.count_append, List.count_cons, hesc]

/-- Helper (claim C8): the table render's count does not depend on any
header or cell text. -/
theorem count_renderTableHtml (c : Char) (hesc : ∀ x : Str, (escapeHtml x).count c = 0)
    (headers : List Str) (rows : List (List Str)) :
    (renderTableHtml headers rows).count c =
      (renderTableHtml (headers.map (fun _ => []))
        (rows.map (List.map (fun _ => [])))).count c := by
  simp only [renderTableHtml, List.count_append]
  have hhc : (joinSep [] (headers.map (fun h => strOf "<th>" ++ escapeHtml h ++ strOf "</th>"))).count c =
      (joinSep [] ((headers.map (fun _ => ([] : Str))).map
        (fun h => strOf "<th>" ++ escapeHtml h ++ strOf "</th>"))).count c := by
    rw [count_joinSep c [] rfl, count_joinSep c [] rfl,
      sum_count_cells c _ _ _ hesc, sum_count_cells c _ _ _ hesc]
    simp
  have hrow : ∀ row : List Str,
      (strOf "<tr>" ++
        joinSep [] (row.map (fun cell => strOf "<td>" ++ escapeHtml cell ++ strOf "</td>")) ++
        strOf "</tr>").count c =
      (strOf "<tr>" ++
        joinSep [] ((row.map (fun _ => ([] : Str))).map
          (fun cell => strOf "<td>" ++ escapeHtml cell ++ strOf "</td>")) ++
        strOf "</tr>").count c := by
    intro row
    simp only [List.count_append]
    rw [count_joinSep c [] rfl, count_joinSep c [] rfl,
      sum_count_cells c _ _ _ hesc, sum_count_cells c _ _ _ hesc]
    simp
  have hrows : (joinSep [] (rows.map (fun row =>
      strOf "<tr>" ++
        joinSep [] (row.map (fun cell => strOf "<td>" ++ escapeHtml cell ++ strOf "</td>")) ++
        strOf "</tr>"))).count c =
      (joinSep [] ((rows.map (List.map (fun _ => ([] : Str)))).map (fun row =>
      strOf "<tr>" ++
        joinSep [] (row.map (fun cell => strOf "<td>" ++ escapeHtml cell ++ strOf "</td>")) ++
        strOf "</tr>"))).count c := by
    rw [count_joinSep c [] rfl, count_joinSep c [] rfl]
    congr 1
    rw [List.map_map, List.map_map, List.map_map]
    refine List.map_congr_left ?_
    intro row _
    simpa using hrow row
  have hempty : (headers.map (fun _ => ([] : Str))).isEmpty = headers.isEmpty := by
    cases headers <;> rfl
  have hif : (if (!headers.isEmpty) = true then
        strOf "<tr>" ++
          joinSep [] (headers.map (fun h => strOf "<th>" ++ escapeHtml h ++ strOf "</th>")) ++
          strOf "</tr>"
      else []).count c =
      (if (!headers.isEmpty) = true then
        strOf "<tr>" ++
          joinSep [] ((headers.map (fun _ => ([] : Str))).map
            (fun h => strOf "<th>" ++ escapeHtml h ++ strOf "</th>")) ++
          strOf "</tr>"
      else []).count c := by
    by_cases hh : (!headers.isEmpty) = true
    · rw [if_pos hh, if_pos hh]
      simp only [List.count_append]
      rw [hhc]
    · rw [if_neg hh, if_neg hh]
  rw [hempty, hrows, hif]

/-- Helper (claim C8): the trace render's count does not depend on the name,
start time, status or metadata texts. -/
theorem count_renderTraceHtml (c : Char) (hesc : ∀ x : Str, (escapeHtml x).count c = 0)
    (hsep : (strOf ", ").count c = 0)
    (name : Str) (durationMs : Nat) (startTime status : Str)
    (metadata : List (Str × Str)) :
    (renderTraceHtml name durationMs startTime status metadata).count c =
      (renderTraceHtml [] durationMs [] []
        (metadata.map (fun _ => ([], [])))).count c := by
  have hitem : ∀ kv : Str × Str,
      ((fun kv : Str × Str =>
        strOf "<span class=\"terminal-trace-metadata-item\">\n                            <span class=\"terminal-trace-metadata-key\">" ++
        escapeHtml kv.1 ++
        strOf "</span>: \n                            <span class=\"terminal-trace-metadata-value\">" ++
        escapeHtml kv.2 ++ strOf "</span>\n                        </span>") kv).count c =
      ((fun kv : Str × Str =>
        strOf "<span class=\"terminal-trace-metadata-item\">\n                            <span class=\"terminal-trace-metadata-key\">" ++
        escapeHtml kv.1 ++
        strOf "</span>: \n                            <span class=\"terminal-trace-metadata-value\">" ++
        escapeHtml kv.2 ++ strOf "</span>\n                        </span>") (([], []) : Str × Str)).count c := by
    intro kv
    simp only [List.count_append, hesc]
  have hmeta : (metadata.map (fun _ => (([], []) : Str × Str))).isEmpty = metadata.isEmpty := by
    cases metadata <;> rfl
  have hif : (if (!metadata.isEmpty) = true then
        strOf "<div class=\"terminal-trace-metadata\">" ++
          joinSep (strOf ", ") (metadata.map (fun kv =>
            strOf "<span class=\"terminal-trace-metadata-item\">\n                            <span class=\"terminal-trace-metadata-key\">" ++
        escapeHtml kv.1 ++
        strOf "</span>: \n                            <span class=\"terminal-trace-metadata-value\">" ++
        escapeHtml kv.2 ++ strOf "</span>\n                        </span>")) ++ strOf "</div>"
      else []).count c =
      (if (!metadata.isEmpty) = true then
        strOf "<div class=\"terminal-trace-metadata\">" ++
          joinSep (strOf ", ") ((metadata.map (fun _ => (([], []) : Str × Str))).map (fun kv =>
            strOf "<span class=\"terminal-trace-metadata-item\">\n                            <span class=\"terminal-trace-metadata-key\">" ++
        escapeHtml kv.1 ++
        strOf "</span>: \n                            <span class=\"terminal-trace-metadata-value\">" ++
        escapeHtml kv.2 ++ strOf "</span>\n                        </span>")) ++ strOf "</div>"
      else []).count c := by
    by_cases hm : (!metadata.isEmpty) = true
    · rw [if_pos hm, if_pos hm]
      simp only [List.count_append]
      have hjoin : (joinSep (strOf ", ") (metadata.map (fun kv =>
            strOf "<span class=\"terminal-trace-metadata-item\">\n                            <span class=\"terminal-trace-metadata-key\">" ++
        escapeHtml kv.1 ++
        strOf "</span>: \n                            <span class=\"terminal-trace-metadata-value\">" ++
        escapeHtml kv.2 ++ strOf "</span>\n                        </span>"))).count c =
          (joinSep (strOf ", ") ((metadata.map (fun _ => (([], []) : Str × Str))).map (fun kv =>
            strOf "<span class=\"terminal-trace-metadata-item\">\n                            <span class=\"terminal-trace-metadata-key\">" ++
        escapeHtml kv.1 ++
        strOf "</span>: \n                            <span class=\"terminal-trace-metadata-value\">" ++
        escapeHtml kv.2 ++ strOf "</span>\n                        </span>"))).count c := by
        rw [count_joinSep c _ hsep, count_joinSep c _ hsep,
          List.map_map, List.map_map, List.map_map]
        exact congrArg List.sum
          (List.map_congr_left (fun kv _ => by simpa [Function.comp] using hitem kv))
      rw [hjoin]
    · rw [if_neg hm, if_neg hm]
  simp only [renderTraceHtml, List.count_append, hesc, hmeta]
  rw [hif]

/-- Helper: escaping eliminates all four directly-renderable special
characters. -/
theorem badCount_escapeHtml (s : Str) : badCount (escapeHtml s) = 0 := by
  simp [badCount, escapeHtml_count_lt, escapeHtml_count_gt, escapeHtml_count_quot,
    escapeHtml_count_apos]

set_option maxRecDepth 8000

/-- Claim C8, counterexample.  The claim asserts no text from the template
name reaches the HTML output unescaped.  `render_template` interpolates
`template_data.template_name` into the `<title>` element without calling
`escape_html`: the name `<x>` appears verbatim in the output (and its
escaped form does not). -/
theorem c8_template_name_unescaped :
    occursB (strOf "<x>") (renderTemplateHtml htmlNoCss (strOf "<x>") .nil) = true ∧
    occursB (strOf "&lt;x&gt;") (renderTemplateHtml htmlNoCss (strOf "<x>") .nil) = false ∧
    escapeHtml (strOf "<x>") = strOf "&lt;x&gt;" :=
  ⟨rfl, rfl, rfl⟩

/-- Claim C8, amended.  The HTML renderer escapes `&`, `<`, `>`, `"`, `'` in
every enumerated block text field — heading text, paragraph text, command
text, metric name/value/unit, log message/timestamp/source, table cells
(header and data), trace name/start/status/metadata, and frame titles — in
the sense that the number of unescaped special characters (`<`, `>`, `"`,
`'`) in each variant's output does not depend on those field texts at all;
but the template name is interpolated into the `<title>` unescaped (the
counterexample), and `Raw` content is passed through verbatim by design. -/
theorem c8_escaping_amended :
    escapeHtml (strOf "&<>\"'") = strOf "&amp;&lt;&gt;&quot;&#39;" ∧
    (∀ s : Str, badCount (escapeHtml s) = 0) ∧
    (∀ (lvl : Nat) (t : Str),
      badCount (renderHeadingHtml lvl t) = badCount (renderHeadingHtml lvl [])) ∧
    (∀ t : Str, badCount (renderParagraphHtml t) = badCount (renderParagraphHtml [])) ∧
    (∀ t : Str, badCount (renderCommandHtml t) = badCount (renderCommandHtml [])) ∧
    (∀ (t content : Str),
      badCount (renderFrameHtml (some t) content) =
        badCount (renderFrameHtml (some []) content)) ∧
    (∀ (name value : Str) (unit : Option Str) (trend : Option Rat),
      badCount (renderMetricHtml name value unit trend) =
        badCount (renderMetricHtml [] [] (unit.map fun _ => []) trend)) ∧
    (∀ (message level : Str) (ts src : Option Str),
      badCount (renderLogEntryHtml message level ts src) =
        badCount (renderLogEntryHtml [] level (ts.map fun _ => [])
          (src.map fun _ => []))) ∧
    (∀ (headers : List Str) (rows : List (List Str)),
      badCount (renderTableHtml headers rows) =
        badCount (renderTableHtml (headers.map fun _ => [])
          (rows.map (List.map fun _ => [])))) ∧
    (∀ (name : Str) (durationMs : Nat) (startTime status : Str)
        (metadata : List (Str × Str)),
      badCount (renderTraceHtml name durationMs startTime status metadata) =
        badCount (renderTraceHtml [] durationMs [] []
          (metadata.map fun _ => ([], [])))) := by
  refine ⟨rfl, badCount_escapeHtml, ?_, ?_, ?_, ?_, ?_, ?_, ?_, ?_⟩
  · intro lvl t
    simp only [badCount]
    rw [count_renderHeadingHtml '<' escapeHtml_count_lt,
      count_renderHeadingHtml '>' escapeHtml_count_gt,
      count_renderHeadingHtml '"' escapeHtml_count_quot,
      count_renderHeadingHtml '\'' escapeHtml_count_apos]
  · intro t
    simp only [badCount]
    rw [count_renderParagraphHtml '<' escapeHtml_count_lt,
      count_renderParagraphHtml '>' escapeHtml_count_gt,
      count_renderParagraphHtml '"' escapeHtml_count_quot,
      count_renderParagraphHtml '\'' escapeHtml_count_apos]
  · intro t
    simp only [badCount]
    rw [count_renderCommandHtml '<' escapeHtml_count_lt,
      count_renderCommandHtml '>' escapeHtml_count_gt,
      count_renderCommandHtml '"' escapeHtml_count_quot,
      count_renderCommandHtml '\'' escapeHtml_count_apos]
  · intro t content
    simp only [badCount]
    rw [count_renderFrameHtml '<' escapeHtml_count_lt,
      count_renderFrameHtml '>' escapeHtml_count_gt,
      count_renderFrameHtml '"' escapeHtml_count_quot,
      count_renderFrameHtml '\'' escapeHtml_count_apos]
  · intro name value unit trend
    simp only [badCount]
    rw [count_renderMetricHtml '<' escapeHtml_count_lt,
      count_renderMetricHtml '>' escapeHtml_count_gt,
      count_renderMetricHtml '"' escapeHtml_count_quot,
      count_renderMetricHtml '\'' escapeHtml_count_apos]
  · intro message level ts src
    simp only [badCount]
    rw [count_renderLogEntryHtml '<' escapeHtml_count_lt,
      count_renderLogEntryHtml '>' escapeHtml_count_gt,
      count_renderLogEntryHtml '"' escapeHtml_count_quot,
      count_renderLogEntryHtml '\'' escapeHtml_count_apos]
  · intro headers rows
    simp only [badCount]
    rw [count_renderTableHtml '<' escapeHtml_count_lt,
      count_renderTableHtml '>' escapeHtml_count_gt,
      count_renderTableHtml '"' escapeHtml_count_quot,
      count_renderTableHtml '\'' escapeHtml_count_apos]
  · intro name durationMs startTime status metadata
    simp only [badCount]
    rw [count_renderTraceHtml '<' escapeHtml_count_lt (by decide),
      count_renderTraceHtml '>' escapeHtml_count_gt (by decide),
      count_renderTraceHtml '"' escapeHtml_count_quot (by decide),
      count_renderTraceHtml '\'' escapeHtml_count_apos (by decide)]

/-- Helper: the guarded column-width update never fails (every read is
guarded by `i < col_widths.len()`). -/
theorem widthsUpd_isSome (cells : List Str) :
    ∀ (i : Nat) (cw : List Nat), (widthsUpd cells i cw).isSome = true := by
  induction cells with
  | nil => intro i cw; rfl
  | cons cell rest ih =>
    intro i cw
    simp only [widthsUpd]
    by_cases h : i < cw.length
    · rw [if_pos h]
      cases hg : cw.get? i with
      | none =>
        have := List.get?_eq_none.mp hg
        omega
      | some cur => simpa [hg] using ih (i + 1) (cw.set i (max cur cell.length))
    · rw [if_neg h]
      exact ih (i + 1) cw

/-- Helper: the row loop of the width computation never fails. -/
theorem widthsRows_isSome (rows : List (List Str)) :
    ∀ cw : List Nat, (widthsRows rows cw).isSome = true := by
  induction rows with
  | nil => intro cw; rfl
  | cons row rest ih =>
    intro cw
    obtain ⟨cw1, h1⟩ := Option.isSome_iff_exists.mp (widthsUpd_isSome row 0 cw)
    simp only [widthsRows, h1, Option.bind_some]
    exact ih cw1

/-- Helper: a separator run never fails as long as the iterated list is
empty or the total column count is positive. -/
theorem sepRow_isSome (horiz mid : Str) (cwTotal : Nat) (l : List Nat)
    (h : l = [] ∨ 1 ≤ cwTotal) : ∀ i : Nat, (sepRow horiz mid cwTotal l i).isSome = true := by
  induction l with
  | nil => intro i; rfl
  | cons w rest ih =>
    intro i
    have h1 : 1 ≤ cwTotal := by
      rcases h with h | h
      · exact absurd h (by simp)
      · exact h
    simp only [sepRow, checkedSub, if_pos h1, Option.bind_some]
    obtain ⟨r, hr⟩ := Option.isSome_iff_exists.mp (ih (Or.inr h1) (i + 1))
    simp [hr]

/-- Helper: a cell run never fails (widths beyond the computed columns
default to 0). -/
theorem cellsRow_isSome (vert : Str) (cw : List Nat) (cells : List Str) :
    ∀ i : Nat, (cellsRow vert cw cells i).isSome = true := by
  induction cells with
  | nil => intro i; rfl
  | cons cell rest ih =>
    intro i
    simp only [cellsRow]
    obtain ⟨r, hr⟩ := Option.isSome_iff_exists.mp (ih (i + 1))
    by_cases h : i < cw.length
    · rw [if_pos h]
      cases hg : cw.get? i with
      | none =>
        have := List.get?_eq_none.mp hg
        omega
      | some width => simp [hg, hr]
    · rw [if_neg h]
      simp [hr]

/-- Helper: the data-row loop never fails as long as the row list is empty
or the total row count is positive. -/
theorem dataRows_isSome (bx : BoxChars) (cw : List Nat) (rowsTotal : Nat)
    (rows : List (List Str)) (h : rows = [] ∨ 1 ≤ rowsTotal) :
    ∀ idx : Nat, (dataRows bx cw rowsTotal rows idx).isSome = true := by
  induction rows with
  | nil => intro idx; rfl
  | cons row rest ih =>
    intro idx
    have h1 : 1 ≤ rowsTotal := by
      rcases h with h | h
      · exact absurd h (by simp)
      · exact h
    obtain ⟨cells, hc⟩ := Option.isSome_iff_exists.mp (cellsRow_isSome bx.vertical cw row 0)
    obtain ⟨restS, hrest⟩ := Option.isSome_iff_exists.mp (ih (Or.inr h1) (idx + 1))
    by_cases hidx : idx < rowsTotal - 1
    · obtain ⟨s, hs⟩ := Option.isSome_iff_exists.mp
        (sepRow_isSome bx.horizontal bx.cross cw.length cw (by cases cw <;> simp) 0)
      simp [dataRows, hc, checkedSub, h1, hidx, hs, hrest]
    · simp [dataRows, hc, checkedSub, h1, hidx, hrest]

/-- Claim C6 (confirmed).  Table rendering never panics on cell-count
mismatches, in either renderer.  Text renderer: `format_table` — with every
potentially panicking operation (indexing into the per-column width
computation, the `len() - 1` subtractions) modelled in the `Option` monad —
returns `some` for every header list and row list, of any shapes.  HTML
renderer: the render is total and renders whatever cells exist: its output
contains exactly one `<th>`/`</th>` pair per header cell and one
`<td>`/`</td>` pair per data cell of every row (plus the fixed markup),
regardless of any mismatch with the header count. -/
theorem c6_table_rendering_safe :
    (∀ (ascii : Bool) (headers : List Str) (rows : List (List Str)),
      (formatTableText (boxChars ascii) headers rows).isSome = true) ∧
    (∀ (headers : List Str) (rows : List (List Str)),
      (renderTableHtml headers rows).count '<' =
        6 + (if headers.isEmpty then 0 else 2 + 2 * headers.length) +
          (rows.map (fun row => 2 + 2 * row.length)).sum) := by
  constructor
  · intro ascii headers rows
    set bx := boxChars ascii
    simp only [formatTableText]
    by_cases hempty : headers.isEmpty && rows.isEmpty
    · rw [if_pos hempty]; rfl
    · rw [if_neg hempty]
      obtain ⟨cw1, h1⟩ := Option.isSome_iff_exists.mp (widthsUpd_isSome headers 0
        (List.replicate (max headers.length (listMax (rows.map List.length))) 0))
      obtain ⟨cw, h2⟩ := Option.isSome_iff_exists.mp (widthsRows_isSome rows cw1)
      obtain ⟨topS, h3⟩ := Option.isSome_iff_exists.mp
        (sepRow_isSome bx.horizontal bx.teeDown cw.length cw (by cases cw <;> simp) 0)
      obtain ⟨dataS, h5⟩ := Option.isSome_iff_exists.mp
        (dataRows_isSome bx cw rows.length rows (by cases rows <;> simp) 0)
      obtain ⟨botS, h6⟩ := Option.isSome_iff_exists.mp
        (sepRow_isSome bx.horizontal bx.teeUp cw.length cw (by cases cw <;> simp) 0)
      by_cases hh : (!headers.isEmpty) = true
      · obtain ⟨hc, h7⟩ := Option.isSome_iff_exists.mp (cellsRow_isSome bx.vertical cw headers 0)
        obtain ⟨hs, h8⟩ := Option.isSome_iff_exists.mp
          (sepRow_isSome bx.horizontal bx.cross cw.length cw (by cases cw <;> simp) 0)
        simp [h1, h2, h3, h5, h6, h7, h8, hh]
      · simp [h1, h2, h3, h5, h6, hh]
  · intro headers rows
    have hrowf : ∀ row : List Str,
        (strOf "<tr>" ++
          joinSep [] (row.map (fun cell => strOf "<td>" ++ escapeHtml cell ++ strOf "</td>")) ++
          strOf "</tr>").count '<' = 2 + 2 * row.length := by
      intro row
      simp only [List.count_append]
      rw [count_joinSep '<' [] rfl, sum_count_cells '<' _ _ _ escapeHtml_count_lt,
        show (strOf "<tr>").count '<' = 1 from rfl,
        show (strOf "</tr>").count '<' = 1 from rfl,
        show (strOf "<td>").count '<' = 1 from rfl,
        show (strOf "</td>").count '<' = 1 from rfl]
      omega
    have hrows : (joinSep [] (rows.map (fun row =>
        strOf "<tr>" ++
          joinSep [] (row.map (fun cell => strOf "<td>" ++ escapeHtml cell ++ strOf "</td>")) ++
          strOf "</tr>"))).count '<' =
        (rows.map (fun row => 2 + 2 * row.length)).sum := by
      rw [count_joinSep '<' [] rfl, List.map_map]
      exact congrArg List.sum
        (List.map_congr_left (fun row _ => by simpa [Function.comp] using hrowf row))
    simp only [renderTableHtml, List.count_append, hrows,
      show (strOf "<table class=\"terminal-table\">\n                <thead>").count '<' = 2
        from rfl,
      show (strOf "</thead>\n                <tbody>").count '<' = 2 from rfl,
      show (strOf "</tbody>\n            </table>").count '<' = 2 from rfl]
    have hth : (joinSep []
        (headers.map (fun h => strOf "<th>" ++ escapeHtml h ++ strOf "</th>"))).count '<' =
        headers.length * 2 := by
      rw [count_joinSep '<' [] rfl, sum_count_cells '<' _ _ _ escapeHtml_count_lt,
        show (strOf "<th>").count '<' = 1 from rfl,
        show (strOf "</th>").count '<' = 1 from rfl]
    cases hh : headers.isEmpty
    · rw [if_pos (by rfl : (!false) = true), if_neg Bool.false_ne_true]
      simp only [List.count_append, hth,
        show (strOf "<tr>").count '<' = 1 from rfl,
        show (strOf "</tr>").count '<' = 1 from rfl]
      omega
    · rw [if_neg (by simp : ¬(!true) = true), if_pos rfl]
      simp only [List.count_nil]
      omega
